import Mathlib

/-!
# Authenticators of `tx7do/oidc-example`

A shallow embedding of the claims codec (`utils/claims.go`) and of the four
authenticators (`jwt`, `oidc`, `presharedkey`, `noop`).

Conventions of the embedding.

* A Go `map[string]V` is a list of entries with `mapGet` / `mapSet` / `mapLen`
  as its lookup, assignment and `len`. The order of the list carries no meaning;
  whenever the Go code ranges over a map, the sequence of keys that the `range`
  statement yields is an explicit argument (`order`) of the embedded function.
* A Go `(value, error)` result is an `Except`.
* The token library (`golang-jwt/jwt/v4`) is a collaborator: `jwt.Parse` is an
  argument of the authenticators, its result type `ParseResult` mirrors the
  `(*Token, error)` pair it returns; `SignedString` is an argument of issuance.
* The HTTP client, the JSON decoder and `keyfunc.Get` are the fields of `Net`,
  an argument of the construction of the dynamic-key authenticator; the random
  source `rand.Intn` is an argument of `randomGetKey`.
* A call that may panic returns an `Option`, `none` being the panic.
-/

namespace Authn

/-! ## Go maps -/

/-- Lookup `m[k]` with the comma-ok form: `none` when the key is missing. -/
def mapGet {V : Type} : List (String × V) → String → Option V
  | [], _ => none
  | (k', v) :: rest, k => if k' = k then some v else mapGet rest k

/-- Assignment `m[k] = v`: overwrite the entry of `k`, or add one. -/
def mapSet {V : Type} : List (String × V) → String → V → List (String × V)
  | [], k, v => [(k, v)]
  | (k', v') :: rest, k, v =>
    if k' = k then (k, v) :: rest else (k', v') :: mapSet rest k v

/-- Keys of a map. -/
def mapKeys {V : Type} (m : List (String × V)) : List String :=
  m.map Prod.fst

/-- Go `len(m)`. -/
def mapLen {V : Type} (m : List (String × V)) : Nat :=
  m.length

/-! ## Package `authn`: errors and claims -/

/-- Modelled from the spec: the sentinel errors of package `authn` (the failure
taxonomy), under the names by which the authenticators refer to them. -/
inductive AuthError
  | MissingBearerToken
  | Unauthenticated
  | InvalidToken
  | TokenExpired
  | UnsupportedSigningMethod
  | InvalidClaims
  | InvalidSubject
  | InvalidIssuer
  | InvalidAudience
  | MissingKeyFunc
  | GetKeyFailed
  | SignTokenFailed
  deriving DecidableEq, Repr

/-- Go error values that reach the authenticators: a sentinel of package
`authn`, a `*jwt.ValidationError` with its `Errors` bit field (a `uint32`), or
an error of any other dynamic type. -/
inductive GoError
  | authn (e : AuthError)
  | validation (Errors : Nat)
  | other (msg : String)
  deriving DecidableEq, Repr

/-- Modelled from the spec: type `authn.ScopeSet`, a set of strings kept as a
`map[string]bool` (the codec ranges over it and assigns `true`); `none` is the
nil map. -/
abbrev ScopeSet := Option (List (String × Bool))

/-- Keys of a scope set; a nil map has none. -/
def ScopeSet.keys : ScopeSet → List String
  | none => []
  | some m => mapKeys m

/-- Go `len` of a scope set; `len` of a nil map is 0. -/
def ScopeSet.len : ScopeSet → Nat
  | none => 0
  | some m => mapLen m

/-- Modelled from the spec: type `authn.AuthClaims`, the normalized identity
record with the fields `Subject` and `Scopes` that the code reads and writes. -/
structure AuthClaims where
  Subject : String
  Scopes : ScopeSet
  deriving DecidableEq, Repr

/-! ## Token claim sets -/

/-- Dynamic values stored in a `jwt.MapClaims` (`map[string]interface{}`):
strings, numbers (their value is never inspected), booleans, nil, `[]string`,
`[]interface{}` and nested `map[string]interface{}`. -/
inductive JVal
  | str (s : String)
  | num (n : Int)
  | bool (b : Bool)
  | null
  | strs (xs : List String)
  | list (xs : List JVal)
  | obj (kvs : List (String × JVal))

/-- Type `jwt.MapClaims`. -/
abbrev MapClaims := List (String × JVal)

/-! ## `utils/claims.go` -/

/-- Go `strings.Split(s, sep)` for a one-character separator, on character
lists: the pieces between the occurrences of `sep` (one more piece than there
are separators). -/
def splitChars (sep : Char) : List Char → List (List Char)
  | [] => [[]]
  | c :: cs =>
    if c = sep then [] :: splitChars sep cs
    else
      match splitChars sep cs with
      | [] => [[c]]
      | w :: ws => (c :: w) :: ws

/-- Go `strings.Split(s, " ")`. -/
def stringsSplit (s : String) : List String :=
  (splitChars ' ' s.data).map String.mk

/-- The loop of `AuthClaimsToJwtClaims` over the remaining scopes of the
`range`, with the loop counter `idx` and the contents of `buffer`. -/
def writeScopes (count : Int) : List String → Int → String → String
  | [], _, buffer => buffer
  | scope :: rest, idx, buffer =>
    let buffer := buffer ++ scope
    let buffer := if idx ≠ count - 1 then buffer ++ " " else buffer
    writeScopes count rest (idx + 1) buffer

/-- Function `AuthClaimsToJwtClaims`; `order` is the sequence of keys that
`range raw.Scopes` yields. -/
def AuthClaimsToJwtClaims (raw : AuthClaims) (order : List String) : MapClaims :=
  let claims : MapClaims := [("sub", JVal.str raw.Subject)]
  let count : Int := raw.Scopes.len
  let str := writeScopes count order 0 ""
  if str.length > 0 then mapSet claims "scope" (JVal.str str) else claims

/-- The loop `for _, s := range scopes { claims.Scopes[s] = true }`. -/
def insertScopes (m : List (String × Bool)) (scopes : List String) : List (String × Bool) :=
  scopes.foldl (fun acc s => mapSet acc s true) m

/-- Function `MapClaimsToAuthClaims`. -/
def MapClaimsToAuthClaims (rawClaims : MapClaims) : Except AuthError AuthClaims :=
  let subject : Except AuthError String :=
    match mapGet rawClaims "sub" with
    | none => .ok ""
    | some (JVal.str s) => .ok s
    | some _ => .error AuthError.InvalidSubject
  match subject with
  | .error e => .error e
  | .ok subject =>
    let scopes : List (String × Bool) :=
      match mapGet rawClaims "scope" with
      | some (JVal.str scope) => insertScopes [] (stringsSplit scope)
      | _ => []
    .ok { Subject := subject, Scopes := some scopes }

/-- Pieces joined with one separator between neighbours, on character lists:
the reading of "space-joined" against which the encoder loop is compared. -/
def joinChars (sep : Char) : List (List Char) → List Char
  | [] => []
  | [w] => w
  | w :: rest => w ++ sep :: joinChars sep rest

/-- Strings joined with single spaces: `s1 + " " + ... + " " + sn`. -/
def joinStrings (l : List String) : String :=
  String.mk (joinChars ' ' (l.map String.data))

/-- Round trip of a claims record through the codec, for one iteration order of
its scope set: decoding the encoded claim set succeeds with the same subject
and the same scopes as a set. -/
def RoundTrip (c : AuthClaims) (order : List String) : Prop :=
  ∃ c2, MapClaimsToAuthClaims (AuthClaimsToJwtClaims c order) = .ok c2 ∧
    c2.Subject = c.Subject ∧ ∀ s, s ∈ c2.Scopes.keys ↔ s ∈ c.Scopes.keys

/-! ## The token library as seen by the authenticators -/

/-- Signing methods registered by `golang-jwt/jwt/v4`; each is a package-level
singleton, so interface equality of two methods is equality of these tags. -/
inductive SigningMethod
  | HS256 | HS384 | HS512
  | RS256 | RS384 | RS512
  | ES256 | ES384 | ES512
  | PS256 | PS384 | PS512
  | EdDSA
  | None
  deriving DecidableEq, Repr

/-- Library `jwt.GetSigningMethod`: the method registered under `alg`, nil when
there is none. -/
def GetSigningMethod (alg : String) : Option SigningMethod :=
  if alg = "HS256" then some .HS256
  else if alg = "HS384" then some .HS384
  else if alg = "HS512" then some .HS512
  else if alg = "RS256" then some .RS256
  else if alg = "RS384" then some .RS384
  else if alg = "RS512" then some .RS512
  else if alg = "ES256" then some .ES256
  else if alg = "ES384" then some .ES384
  else if alg = "ES512" then some .ES512
  else if alg = "PS256" then some .PS256
  else if alg = "PS384" then some .PS384
  else if alg = "PS512" then some .PS512
  else if alg = "EdDSA" then some .EdDSA
  else if alg = "none" then some .None
  else Option.none

/-- Dynamic type of the `Claims` field of a token (`jwt.Claims` interface):
nil, a `jwt.MapClaims`, or some other implementation. -/
inductive JwtClaims
  | nil
  | map (m : MapClaims)
  | other

/-- The fields of `jwt.Token` read by the authenticators. `Method` is an
interface value and may be nil. -/
structure Token where
  Method : Option SigningMethod
  Claims : JwtClaims
  Valid : Bool

/-- Type `jwt.Keyfunc`: resolves the verification key (bytes, kept as a string)
for a token. -/
abbrev Keyfunc := Token → Except GoError String

/-- Result `(token, err)` of `jwt.Parse`: `ok` when `err == nil` (the token is
then non-nil), `fail` when `err != nil` (a token may still be returned). -/
inductive ParseResult
  | ok (token : Token)
  | fail (token : Option Token) (err : GoError)

/-- Type of `jwt.Parse`. -/
abbrev Parse := String → Keyfunc → ParseResult

/-- Result of `utils.AuthFromMD(ctx, utils.BearerWord, false)` on a request
context: the bearer credential or an error. A request is represented by this
result. -/
abbrev Extraction := Except GoError String

/-- Bits of `ValidationError.Errors` in `golang-jwt/jwt/v4`. -/
def ValidationErrorMalformed : Nat := 1 <<< 0
/-- Token could not be verified because of signing problems. -/
def ValidationErrorUnverifiable : Nat := 1 <<< 1
/-- Signature validation failed. -/
def ValidationErrorSignatureInvalid : Nat := 1 <<< 2
/-- Claim `aud` failed. -/
def ValidationErrorAudience : Nat := 1 <<< 3
/-- Claim `exp` failed. -/
def ValidationErrorExpired : Nat := 1 <<< 4
/-- Claim `iat` failed. -/
def ValidationErrorIssuedAt : Nat := 1 <<< 5
/-- Claim `iss` failed. -/
def ValidationErrorIssuer : Nat := 1 <<< 6
/-- Claim `nbf` failed. -/
def ValidationErrorNotValidYet : Nat := 1 <<< 7

/-- Function `JwtClaimsToAuthClaims`. -/
def JwtClaimsToAuthClaims (rawClaims : JwtClaims) : Except AuthError AuthClaims :=
  match rawClaims with
  | .map claims => MapClaimsToAuthClaims claims
  | _ => .error AuthError.InvalidClaims

/-! ## Package `jwt`: the shared-secret authenticator -/

namespace Jwt

/-- Type `jwt.Authenticator`; both fields may be nil. -/
structure Authenticator where
  signingMethod : Option SigningMethod
  keyFunc : Option Keyfunc

/-- Function `NewAuthenticator` of package `jwt`. -/
def NewAuthenticator (key alg : String) : Except GoError Authenticator :=
  let auth : Authenticator :=
    { signingMethod := GetSigningMethod alg
      keyFunc := some (fun _ => .ok key) }
  let auth : Authenticator :=
    if auth.signingMethod = Option.none then { auth with signingMethod := some .HS256 } else auth
  .ok auth

/-- Method `parseToken` of the shared-secret authenticator. -/
def Authenticator.parseToken (jwtParse : Parse) (a : Authenticator) (token : String) :
    ParseResult :=
  match a.keyFunc with
  | Option.none => .fail Option.none (.authn AuthError.MissingKeyFunc)
  | some kf => jwtParse token kf

/-- Method `Authenticate` of the shared-secret authenticator. -/
def Authenticator.Authenticate (jwtParse : Parse) (a : Authenticator) (md : Extraction) :
    Except AuthError AuthClaims :=
  match md with
  | .error _ => .error AuthError.MissingBearerToken
  | .ok tokenString =>
    match a.parseToken jwtParse tokenString with
    | .fail _ err =>
      match err with
      | .validation errors =>
        if errors &&& ValidationErrorMalformed ≠ 0 then .error AuthError.InvalidToken
        else if errors &&& (ValidationErrorExpired ||| ValidationErrorNotValidYet) ≠ 0 then
          .error AuthError.TokenExpired
        else .error AuthError.InvalidToken
      | _ => .error AuthError.Unauthenticated
    | .ok token =>
      if !token.Valid then .error AuthError.InvalidToken
      else if token.Method ≠ a.signingMethod then .error AuthError.UnsupportedSigningMethod
      else
        match token.Claims with
        | .nil => .error AuthError.InvalidClaims
        | .other => .error AuthError.InvalidClaims
        | .map claims => MapClaimsToAuthClaims claims

end Jwt

/-! ## Package `oidc`: the dynamic-key authenticator -/

namespace Oidc

/-- Library type `keyfunc.JWKS`, the live key set; the authenticator uses its
`Keyfunc` method only. -/
structure JWKS where
  Keyfunc : Authn.Keyfunc

/-- Type `oidc.Authenticator` (the HTTP client is a transport detail). -/
structure Authenticator where
  IssuerURL : String
  Audience : String
  JwksURI : String
  JWKs : JWKS
  signingMethod : Option SigningMethod

/-- Library `verifyIss`; a constant-time comparison of two byte strings is
non-zero exactly when they are equal. -/
def verifyIss (iss cmp : String) (required : Bool) : Bool :=
  if iss = "" then !required else decide (iss = cmp)

/-- Library method `MapClaims.VerifyIssuer`. -/
def VerifyIssuer (m : MapClaims) (cmp : String) (req : Bool) : Bool :=
  let iss : String :=
    match mapGet m "iss" with
    | some (JVal.str s) => s
    | _ => ""
  verifyIss iss cmp req

/-- Library `verifyAud`: the loop keeps `result` and the concatenation
`stringClaims` of all audiences. -/
def verifyAud (aud : List String) (cmp : String) (required : Bool) : Bool :=
  if aud.length = 0 then !required
  else
    let st : Bool × String :=
      aud.foldl (fun st a => (if a = cmp then true else st.1, st.2 ++ a)) (false, "")
    if st.2.length = 0 then !required else st.1

/-- The conversion loop of `VerifyAudience` over a `[]interface{}`: stops with
failure at the first element that is not a string. -/
def audStrings : List JVal → Option (List String)
  | [] => some []
  | JVal.str vs :: rest => (audStrings rest).map (fun l => vs :: l)
  | _ :: _ => Option.none

/-- Library method `MapClaims.VerifyAudience`. -/
def VerifyAudience (m : MapClaims) (cmp : String) (req : Bool) : Bool :=
  match mapGet m "aud" with
  | some (JVal.str v) => verifyAud [v] cmp req
  | some (JVal.strs v) => verifyAud v cmp req
  | some (JVal.list v) =>
    match audStrings v with
    | Option.none => false
    | some aud => verifyAud aud cmp req
  | _ => verifyAud [] cmp req

/-- Method `parseToken` of the dynamic-key authenticator. -/
def Authenticator.parseToken (jwtParse : Parse) (oidc : Authenticator) (token : String) :
    ParseResult :=
  jwtParse token oidc.JWKs.Keyfunc

/-- Method `Authenticate` of the dynamic-key authenticator. -/
def Authenticator.Authenticate (jwtParse : Parse) (oidc : Authenticator) (md : Extraction) :
    Except AuthError AuthClaims :=
  match md with
  | .error _ => .error AuthError.MissingBearerToken
  | .ok tokenString =>
    match oidc.parseToken jwtParse tokenString with
    | .fail _ err =>
      match err with
      | .validation errors =>
        if errors &&& ValidationErrorMalformed ≠ 0 then .error AuthError.InvalidToken
        else if errors &&& (ValidationErrorExpired ||| ValidationErrorNotValidYet) ≠ 0 then
          .error AuthError.TokenExpired
        else .error AuthError.InvalidToken
      | _ => .error AuthError.Unauthenticated
    | .ok token =>
      if !token.Valid then .error AuthError.InvalidToken
      else
        match token.Claims with
        | .map claims =>
          if !VerifyIssuer claims oidc.IssuerURL true then .error AuthError.InvalidIssuer
          else if !VerifyAudience claims oidc.Audience true then .error AuthError.InvalidAudience
          else MapClaimsToAuthClaims claims
        | _ => .error AuthError.InvalidClaims

end Oidc

/-! ## Package `presharedkey` -/

namespace Presharedkey

/-- Type `presharedkey.KeySet`, a `map[string]bool`. -/
abbrev KeySet := List (String × Bool)

/-- Type `presharedkey.Authenticator`. -/
structure Authenticator where
  ValidKeys : KeySet
  deriving DecidableEq, Repr

/-- Function `NewAuthenticator` of package `presharedkey`. -/
def NewAuthenticator (validKeys : List String) : Except GoError Authenticator :=
  if validKeys.length < 1 then
    .error (.other "invalid auth configuration, please specify at least one key")
  else
    let vKeys : KeySet := validKeys.foldl (fun m k => mapSet m k true) []
    .ok { ValidKeys := vKeys }

/-- Method `Authenticate` of the preshared-key authenticator. -/
def Authenticator.Authenticate (pka : Authenticator) (md : Extraction) :
    Except AuthError AuthClaims :=
  match md with
  | .error _ => .error AuthError.MissingBearerToken
  | .ok tokenString =>
    match mapGet pka.ValidKeys tokenString with
    | some _ => .ok { Subject := "", Scopes := Option.none }
    | Option.none => .error AuthError.Unauthenticated

end Presharedkey

/-! ## Package `noop` -/

namespace Noop

/-- Type `noop.Authenticator`. -/
structure Authenticator where
  deriving DecidableEq, Repr

/-- Method `Authenticate` of the noop authenticator; the context is not read. -/
def Authenticator.Authenticate (_n : Authenticator) (_md : Extraction) :
    Except AuthError AuthClaims :=
  .ok { Subject := "", Scopes := Option.none }

end Noop

/-! ## Issuance in shared-secret mode -/

/-- Library `jwt.NewWithClaims`: the header is filled from `method.Alg()`, so a
nil method is a run-time panic (`none`); otherwise the new token carries the
method and the claims and is not yet valid. -/
def NewWithClaims (method : Option SigningMethod) (claims : MapClaims) : Option Token :=
  match method with
  | Option.none => Option.none
  | some m => some { Method := some m, Claims := .map claims, Valid := false }

/-- Type of the library method `(*jwt.Token).SignedString`: the compact
serialization of the token signed with the key, or an error. -/
abbrev SignedString := Token → String → Except GoError String

namespace Jwt

/-- Method `generateToken` of the shared-secret authenticator. -/
def Authenticator.generateToken (signedString : SignedString) (a : Authenticator)
    (token : Token) : Except AuthError String :=
  match a.keyFunc with
  | Option.none => .error AuthError.MissingKeyFunc
  | some kf =>
    match kf token with
    | .error _ => .error AuthError.GetKeyFailed
    | .ok key =>
      match signedString token key with
      | .error _ => .error AuthError.SignTokenFailed
      | .ok tokenStr => .ok tokenStr

/-- Method `CreateIdentity` of the shared-secret authenticator; `order` is the
sequence of keys that the codec's `range claims.Scopes` yields. The result is
`none` when the call panics, else the `(string, error)` pair; the credential
returned is the one `utils.MDWithAuth` writes into the context. -/
def Authenticator.CreateIdentity (signedString : SignedString) (a : Authenticator)
    (claims : AuthClaims) (order : List String) : Option (Except AuthError String) :=
  match NewWithClaims a.signingMethod (AuthClaimsToJwtClaims claims order) with
  | Option.none => Option.none
  | some token =>
    match a.generateToken signedString token with
    | .error err => some (.error err)
    | .ok tokenStr => some (.ok tokenStr)

end Jwt

/-! ## Issuance in preshared-key mode -/

namespace Presharedkey

/-- The loop of `randomGetKey` over the remaining keys of the `range`, with the
current value of `idx`. -/
def randomGetKeyLoop : List String → Int → String
  | [], _ => ""
  | k :: rest, idx => if idx = 0 then k else randomGetKeyLoop rest (idx - 1)

/-- Method `randomGetKey`; `intn` is the random source (`rand.Intn`) and `order`
the sequence of keys that `range pka.ValidKeys` yields. -/
def Authenticator.randomGetKey (pka : Authenticator) (intn : Nat → Int)
    (order : List String) : String :=
  let count := mapLen pka.ValidKeys
  if count = 0 then ""
  else
    let idx := intn count
    randomGetKeyLoop order idx

/-- Method `CreateIdentity` of the preshared-key authenticator; the credential
returned is the one `utils.MDWithAuth` writes into the context. -/
def Authenticator.CreateIdentity (pka : Authenticator) (intn : Nat → Int)
    (order : List String) (_claims : AuthClaims) : Except GoError String :=
  let token := pka.randomGetKey intn order
  .ok token

end Presharedkey

/-! ## Discovery and construction of the dynamic-key authenticator -/

/-- Go `strings.HasSuffix`. -/
def stringsHasSuffix (s suffix : String) : Bool :=
  suffix.data.isSuffixOf s.data

/-- Go `strings.TrimSuffix`: `s` without the trailing `suffix` when it has one,
else `s`. -/
def stringsTrimSuffix (s suffix : String) : String :=
  if stringsHasSuffix s suffix then
    String.mk (s.data.take (s.data.length - suffix.data.length))
  else s

namespace Oidc

/-- Modelled from the spec: type `oidc.ProviderConfig`, the discovery metadata,
with the issuer identity string and the key-distribution endpoint URL under
the field names the code reads. -/
structure ProviderConfig where
  Issuer : String
  JWKSURL : String
  deriving DecidableEq, Repr

/-- An HTTP response as `GetConfiguration` reads it: the status code and the
result of `io.ReadAll(res.Body)`. -/
structure Response where
  StatusCode : Int
  Body : Except GoError String

/-- The collaborators of construction: `http.NewRequest("GET", url, nil)` (a
request is represented by its URL), the client's `Do`, `json.Unmarshal` into a
`ProviderConfig`, and `keyfunc.Get` with the authenticator's options. -/
structure Net where
  NewRequest : String → Except GoError String
  Do : String → Except GoError Response
  Unmarshal : String → Except GoError ProviderConfig
  Get : String → Except GoError JWKS

/-- Constant `http.StatusOK`. -/
def StatusOK : Int := 200

/-- Method `getDiscoveryUri`, as a function of the field `IssuerURL` it reads. -/
def getDiscoveryUri (IssuerURL : String) : String :=
  stringsTrimSuffix IssuerURL "/" ++ "/.well-known/openid-configuration"

/-- Method `GetConfiguration`, as a function of the field `IssuerURL` it
reads. Error texts keep the fixed part of the format string. -/
def GetConfiguration (net : Net) (IssuerURL : String) : Except GoError ProviderConfig :=
  let wellKnown := getDiscoveryUri IssuerURL
  match net.NewRequest wellKnown with
  | .error _ => .error (.other "error forming request to get OIDC")
  | .ok req =>
    match net.Do req with
    | .error _ => .error (.other "error getting OIDC")
    | .ok res =>
      if res.StatusCode ≠ StatusOK then .error (.other "unexpected status code getting OIDC")
      else
        match res.Body with
        | .error _ => .error (.other "error reading response body")
        | .ok body =>
          match net.Unmarshal body with
          | .error _ => .error (.other "failed parsing document")
          | .ok oidcConfig =>
            if oidcConfig.Issuer = "" then .error (.other "missing issuer value")
            else if oidcConfig.JWKSURL = "" then .error (.other "missing jwks_uri value")
            else .ok oidcConfig

/-- Method `GetKeys`, as a function of the field `JwksURI` it reads. -/
def GetKeys (net : Net) (JwksURI : String) : Except GoError JWKS :=
  match net.Get JwksURI with
  | .error _ => .error (.other "error fetching keys")
  | .ok jwks => .ok jwks

/-- Method `fetchKeys`, as a function of the field `IssuerURL` it reads; on
success it returns the values it assigns to the fields `JwksURI` and `JWKs`. -/
def fetchKeys (net : Net) (IssuerURL : String) : Except GoError (String × JWKS) :=
  match GetConfiguration net IssuerURL with
  | .error _ => .error (.other "error fetching OIDC configuration")
  | .ok oidcConfig =>
    let JwksURI := oidcConfig.JWKSURL
    match GetKeys net JwksURI with
    | .error _ => .error (.other "error fetching OIDC keys")
    | .ok jwks => .ok (JwksURI, jwks)

/-- Function `NewAuthenticator` of package `oidc`. -/
def NewAuthenticator (net : Net) (issuerURL audience alg : String) :
    Except GoError Authenticator :=
  let signingMethod : Option SigningMethod := GetSigningMethod alg
  let signingMethod : Option SigningMethod :=
    if signingMethod = Option.none then some .RS256 else signingMethod
  match fetchKeys net issuerURL with
  | .error err => .error err
  | .ok (JwksURI, jwks) =>
    .ok
      { IssuerURL := issuerURL
        Audience := audience
        JwksURI := JwksURI
        JWKs := jwks
        signingMethod := signingMethod }

/-- Method `CreateIdentity` of the dynamic-key authenticator. -/
def Authenticator.CreateIdentity (_oidc : Authenticator) (_claims : AuthClaims) :
    Except GoError String :=
  .ok ""

end Oidc

/-! ## Reading of the failure taxonomy -/

/-- Classification of a parse error as the failure taxonomy words it: not a
validation error gives `Unauthenticated`; flag "malformed" (bit 0) gives
`InvalidToken`; else flag "expired" (bit 4) or "not valid yet" (bit 7) gives
`TokenExpired`; else `InvalidToken`. -/
def classifyParseError : GoError → AuthError
  | .validation errors =>
    if errors.testBit 0 then AuthError.InvalidToken
    else if errors.testBit 4 || errors.testBit 7 then AuthError.TokenExpired
    else AuthError.InvalidToken
  | _ => AuthError.Unauthenticated

/-! ## Sample authenticators and parse outcomes -/

/-- The authenticator that `jwt.NewAuthenticator("s3cr3t", "HS256")` builds. -/
def sharedSecretHS256 : Jwt.Authenticator :=
  { signingMethod := some .HS256, keyFunc := some (fun _ => .ok "s3cr3t") }

/-- A dynamic-key authenticator for issuer `https://idp.example` and audience
`api`. -/
def dynamicKeyIdp : Oidc.Authenticator :=
  { IssuerURL := "https://idp.example"
    Audience := "api"
    JwksURI := "https://idp.example/jwks"
    JWKs := { Keyfunc := fun _ => .ok "public-key" }
    signingMethod := some .RS256 }

/-- A token that declares RS256 and did not verify. -/
def rs256Token : Token :=
  { Method := some .RS256, Claims := .map [("sub", JVal.str "mallory")], Valid := false }

/-- A library outcome: the token declares RS256 and its signature check fails
against the shared secret. -/
def parseSignatureInvalid : Parse :=
  fun _ _ => .fail (some rs256Token) (.validation ValidationErrorSignatureInvalid)

/-- A library outcome: a valid token that declares HS512. -/
def parseValidHS512 : Parse :=
  fun _ _ => .ok { Method := some .HS512, Claims := .map [("sub", JVal.str "alice")], Valid := true }

/-- A library outcome: the token is expired and its signature is invalid. -/
def parseExpiredBadSignature : Parse :=
  fun _ _ => .fail Option.none
    (.validation (ValidationErrorExpired ||| ValidationErrorSignatureInvalid))

/-- A library outcome: a valid HS256 token for subject `alice` without a
`scope` claim. -/
def parseValidAlice : Parse :=
  fun _ _ => .ok { Method := some .HS256, Claims := .map [("sub", JVal.str "alice")], Valid := true }

/-- The claim set of a successfully parsed token when it is a `jwt.MapClaims`. -/
def tokenMapClaims : ParseResult → Option MapClaims
  | .ok token =>
    match token.Claims with
    | .map m => some m
    | _ => Option.none
  | .fail _ _ => Option.none

/-- A library outcome: a valid RS256 token of issuer `https://idp.example` for
audience `api` and subject `alice`, without a `scope` claim. -/
def parseValidIdp : Parse :=
  fun _ _ => .ok
    { Method := some .RS256
      Claims := .map [("iss", JVal.str "https://idp.example"), ("aud", JVal.str "api"),
        ("sub", JVal.str "alice")]
      Valid := true }

/-- The `aud` claim contains the audience: it is a single string equal to it,
or a list that has it as an element. -/
def audContains (m : MapClaims) (audience : String) : Prop :=
  match mapGet m "aud" with
  | some (JVal.str v) => v = audience
  | some (JVal.strs l) => audience ∈ l
  | some (JVal.list l) => JVal.str audience ∈ l
  | _ => False

/-- The `aud` claim is a single string or a list of strings. -/
def audIsStrings (m : MapClaims) : Prop :=
  match mapGet m "aud" with
  | some (JVal.str _) => True
  | some (JVal.strs _) => True
  | some (JVal.list l) => ∀ v ∈ l, ∃ s, v = JVal.str s
  | _ => False

/-- A dynamic-key authenticator for issuer `https://idp.example` configured
with the empty audience. -/
def dynamicKeyNoAudience : Oidc.Authenticator :=
  { IssuerURL := "https://idp.example"
    Audience := ""
    JwksURI := "https://idp.example/jwks"
    JWKs := { Keyfunc := fun _ => .ok "public-key" }
    signingMethod := some .RS256 }

/-- Claim set with issuer `https://idp.example` and the empty audience string. -/
def claimsEmptyAudience : MapClaims :=
  [("iss", JVal.str "https://idp.example"), ("aud", JVal.str ""), ("sub", JVal.str "alice")]

/-- A library outcome: a valid token carrying `claimsEmptyAudience`. -/
def parseEmptyAudience : Parse :=
  fun _ _ => .ok { Method := some .RS256, Claims := .map claimsEmptyAudience, Valid := true }

/-- A dynamic-key authenticator value whose issuer is the empty string. -/
def dynamicKeyNoIssuer : Oidc.Authenticator :=
  { IssuerURL := ""
    Audience := "api"
    JwksURI := "https://idp.example/jwks"
    JWKs := { Keyfunc := fun _ => .ok "public-key" }
    signingMethod := some .RS256 }

/-- Claim set with the empty issuer string and audience `api`. -/
def claimsEmptyIssuer : MapClaims :=
  [("iss", JVal.str ""), ("aud", JVal.str "api"), ("sub", JVal.str "alice")]

/-- A library outcome: a valid token carrying `claimsEmptyIssuer`. -/
def parseEmptyIssuer : Parse :=
  fun _ _ => .ok { Method := some .RS256, Claims := .map claimsEmptyIssuer, Valid := true }

/-- A provider whose discovery endpoint answers with status 200 and a document
naming issuer `https://idp.example` and key endpoint `https://idp.example/jwks`,
and whose key endpoint serves a key set. -/
def idpNet : Oidc.Net :=
  { NewRequest := fun url => .ok url
    Do := fun _ => .ok { StatusCode := 200, Body := .ok "discovery document" }
    Unmarshal := fun _ =>
      .ok { Issuer := "https://idp.example", JWKSURL := "https://idp.example/jwks" }
    Get := fun _ => .ok { Keyfunc := fun _ => .ok "public-key" } }

/-- A signer that always succeeds. -/
def signAlways : SignedString :=
  fun _ _ => .ok "header.payload.signature"

/-- The token that `jwt.NewWithClaims` returns for a non-nil method. -/
def unsignedToken (m : SigningMethod) (claims : MapClaims) : Token :=
  { Method := some m, Claims := .map claims, Valid := false }

/-- The zero value `jwt.Authenticator{}`: no signing method, no key function. -/
def zeroValueJwt : Jwt.Authenticator :=
  { signingMethod := Option.none, keyFunc := Option.none }

/-- An authenticator value with HS256 bound and no key function. -/
def keylessHS256 : Jwt.Authenticator :=
  { signingMethod := some .HS256, keyFunc := Option.none }

/-! ## Go maps: basic facts -/

theorem mapGet_mapSet_same {V : Type} (m : List (String × V)) (k : String) (v : V) :
    mapGet (mapSet m k v) k = some v := by
  induction m with
  | nil => simp [mapSet, mapGet]
  | cons e rest ih =>
    obtain ⟨k', v'⟩ := e
    by_cases h : k' = k
    · simp [mapSet, mapGet, h]
    · simp [mapSet, mapGet, h, ih]

theorem mapGet_mapSet_other {V : Type} (m : List (String × V)) (k k2 : String) (v : V)
    (hk : k ≠ k2) : mapGet (mapSet m k v) k2 = mapGet m k2 := by
  induction m with
  | nil => simp [mapSet, mapGet, hk]
  | cons e rest ih =>
    obtain ⟨k', v'⟩ := e
    by_cases h : k' = k
    · subst h
      simp [mapSet, mapGet, hk]
    · by_cases h2 : k' = k2
      · subst h2
        simp [mapSet, mapGet, h]
      · simp [mapSet, mapGet, h, h2, ih]

theorem mem_mapKeys_mapSet {V : Type} (m : List (String × V)) (k x : String) (v : V) :
    x ∈ mapKeys (mapSet m k v) ↔ x = k ∨ x ∈ mapKeys m := by
  induction m with
  | nil => simp [mapSet, mapKeys]
  | cons e rest ih =>
    obtain ⟨k', v'⟩ := e
    by_cases h : k' = k
    · subst h
      simp [mapSet, mapKeys]
    · have ih2 : x ∈ List.map Prod.fst (mapSet rest k v) ↔ x = k ∨ x ∈ List.map Prod.fst rest := ih
      simp only [mapSet, h, if_false, mapKeys, List.map_cons, List.mem_cons, ih2]
      tauto

theorem nodup_mapKeys_mapSet {V : Type} (m : List (String × V)) (k : String) (v : V)
    (hm : (mapKeys m).Nodup) : (mapKeys (mapSet m k v)).Nodup := by
  induction m with
  | nil => simp [mapSet, mapKeys]
  | cons e rest ih =>
    obtain ⟨k', v'⟩ := e
    have hm2 : k' ∉ mapKeys rest ∧ (mapKeys rest).Nodup := by
      simpa [mapKeys] using hm
    by_cases h : k' = k
    · subst h
      simpa [mapSet, mapKeys] using hm
    · have hnot : k' ∉ mapKeys (mapSet rest k v) := by
        rw [mem_mapKeys_mapSet]
        rintro (h1 | h1)
        · exact h h1
        · exact hm2.1 h1
      have hrec := ih hm2.2
      simp only [mapSet, h, if_false]
      exact List.nodup_cons.mpr ⟨hnot, hrec⟩

theorem mapGet_eq_none_iff {V : Type} (m : List (String × V)) (k : String) :
    mapGet m k = none ↔ k ∉ mapKeys m := by
  induction m with
  | nil => simp [mapGet, mapKeys]
  | cons e rest ih =>
    obtain ⟨k', v'⟩ := e
    by_cases h : k' = k
    · simp [mapGet, mapKeys, h]
    · have ih2 : mapGet rest k = none ↔ k ∉ List.map Prod.fst rest := ih
      have h3 : ¬ k = k' := fun hh => h hh.symm
      simp [mapGet, mapKeys, h, h3, ih2]

theorem values_mapSet_true (m : List (String × Bool)) (k : String)
    (hm : ∀ x b, (x, b) ∈ m → b = true) : ∀ x b, (x, b) ∈ mapSet m k true → b = true := by
  induction m with
  | nil =>
    intro x b hx
    simp [mapSet] at hx
    exact hx.2
  | cons e rest ih =>
    obtain ⟨k', v'⟩ := e
    intro x b hx
    by_cases h : k' = k
    · simp only [mapSet, h, if_true, List.mem_cons] at hx
      rcases hx with hx | hx
      · exact (Prod.mk.inj hx).2
      · exact hm x b (List.mem_cons_of_mem _ hx)
    · simp only [mapSet, h, if_false, List.mem_cons] at hx
      rcases hx with hx | hx
      · exact hm x b (by rw [hx]; exact List.mem_cons_self _ _)
      · exact ih (fun y c hy => hm y c (List.mem_cons_of_mem _ hy)) x b hx

/-! ## The scope loop of the decoder -/

theorem mem_mapKeys_insertScopes (l : List String) (m : List (String × Bool)) (x : String) :
    x ∈ mapKeys (insertScopes m l) ↔ x ∈ mapKeys m ∨ x ∈ l := by
  induction l generalizing m with
  | nil => simp [insertScopes]
  | cons s rest ih =>
    have h := ih (mapSet m s true)
    simp only [insertScopes, List.foldl_cons] at h ⊢
    rw [h, mem_mapKeys_mapSet]
    simp only [List.mem_cons]
    tauto

theorem nodup_mapKeys_insertScopes (l : List String) (m : List (String × Bool))
    (hm : (mapKeys m).Nodup) : (mapKeys (insertScopes m l)).Nodup := by
  induction l generalizing m with
  | nil => simpa [insertScopes] using hm
  | cons s rest ih =>
    have h := ih (mapSet m s true) (nodup_mapKeys_mapSet m s true hm)
    simpa [insertScopes] using h

theorem values_insertScopes_true (l : List String) (m : List (String × Bool))
    (hm : ∀ x b, (x, b) ∈ m → b = true) :
    ∀ x b, (x, b) ∈ insertScopes m l → b = true := by
  induction l generalizing m with
  | nil => simpa [insertScopes] using hm
  | cons s rest ih =>
    have h := ih (mapSet m s true) (values_mapSet_true m s hm)
    simpa [insertScopes] using h

/-! ## Splitting and joining -/

theorem splitChars_ne_nil (sep : Char) (s : List Char) : splitChars sep s ≠ [] := by
  cases s with
  | nil => simp [splitChars]
  | cons c cs =>
    by_cases h : c = sep
    · simp [splitChars, h]
    · simp only [splitChars, h, if_false]
      cases splitChars sep cs <;> simp

theorem splitChars_of_not_mem (sep : Char) (w : List Char) (hw : sep ∉ w) :
    splitChars sep w = [w] := by
  induction w with
  | nil => simp [splitChars]
  | cons c cs ih =>
    have hc : ¬ c = sep := fun h => hw (by simp [h])
    have hcs : sep ∉ cs := fun h => hw (List.mem_cons_of_mem _ h)
    simp [splitChars, hc, ih hcs]

theorem splitChars_append_sep (sep : Char) (w t : List Char) (hw : sep ∉ w) :
    splitChars sep (w ++ sep :: t) = w :: splitChars sep t := by
  induction w with
  | nil => simp [splitChars]
  | cons c cs ih =>
    have hc : ¬ c = sep := fun h => hw (by simp [h])
    have hcs : sep ∉ cs := fun h => hw (List.mem_cons_of_mem _ h)
    simp [splitChars, hc, ih hcs]

theorem splitChars_joinChars (sep : Char) (l : List (List Char)) (hl : l ≠ [])
    (hsep : ∀ w ∈ l, sep ∉ w) : splitChars sep (joinChars sep l) = l := by
  induction l with
  | nil => exact absurd rfl hl
  | cons w rest ih =>
    cases rest with
    | nil => simpa [joinChars] using splitChars_of_not_mem sep w (hsep w (by simp))
    | cons w2 rest2 =>
      have h1 : sep ∉ w := hsep w (by simp)
      have h2 := ih (by simp) (fun x hx => hsep x (List.mem_cons_of_mem _ hx))
      simp only [joinChars]
      rw [splitChars_append_sep sep w _ h1]
      simpa [joinChars] using h2

theorem joinChars_splitChars (sep : Char) (s : List Char) :
    joinChars sep (splitChars sep s) = s := by
  induction s with
  | nil => simp [splitChars, joinChars]
  | cons c cs ih =>
    by_cases h : c = sep
    · have hne := splitChars_ne_nil sep cs
      cases hsp : splitChars sep cs with
      | nil => exact absurd hsp hne
      | cons w ws =>
        rw [hsp] at ih
        simp [splitChars, h, hsp, joinChars, ih]
    · have hne := splitChars_ne_nil sep cs
      cases hsp : splitChars sep cs with
      | nil => exact absurd hsp hne
      | cons w ws =>
        rw [hsp] at ih
        cases ws with
        | nil =>
          simp only [joinChars] at ih
          simp [splitChars, h, hsp, joinChars, ih]
        | cons w2 ws2 =>
          simp only [joinChars] at ih
          simp [splitChars, h, hsp, joinChars, ih]

theorem not_mem_of_mem_splitChars (sep : Char) (s w : List Char)
    (hw : w ∈ splitChars sep s) : sep ∉ w := by
  induction s generalizing w with
  | nil =>
    simp [splitChars] at hw
    simp [hw]
  | cons c cs ih =>
    have hne := splitChars_ne_nil sep cs
    cases hsp : splitChars sep cs with
    | nil => exact absurd hsp hne
    | cons w1 ws =>
      rw [hsp] at ih
      by_cases h : c = sep
      · simp only [splitChars, h, if_true, hsp, List.mem_cons] at hw
        rcases hw with hw | hw | hw
        · simp [hw]
        · exact ih w (by simp [hw])
        · exact ih w (by simp [hw])
      · simp only [splitChars, h, if_false, hsp, List.mem_cons] at hw
        rcases hw with hw | hw
        · have h1 := ih w1 (by simp)
          have h3 : ¬ sep = c := fun hh => h hh.symm
          simp [hw, h1, h3]
        · exact ih w (by simp [hw])

theorem joinChars_eq_nil (sep : Char) (l : List (List Char)) (hl : l ≠ [])
    (h : joinChars sep l = []) : l = [[]] := by
  cases l with
  | nil => exact absurd rfl hl
  | cons w rest =>
    cases rest with
    | nil => simpa [joinChars] using h
    | cons w2 rest2 => simp [joinChars] at h

/-! ## The scope loop of the encoder -/

theorem writeScopes_data (count : Int) (rest : List String) (idx : Int) (buffer : String)
    (h : idx + rest.length = count) :
    (writeScopes count rest idx buffer).data
      = buffer.data ++ joinChars ' ' (rest.map String.data) := by
  induction rest generalizing idx buffer with
  | nil => simp [writeScopes, joinChars]
  | cons scope rest2 ih =>
    cases rest2 with
    | nil =>
      have hidx : idx = count - 1 := by
        simp at h
        omega
      simp [writeScopes, hidx, joinChars]
    | cons s2 rest3 =>
      have hidx : idx ≠ count - 1 := by
        simp at h
        omega
      have hrec := ih (idx + 1) (buffer ++ scope ++ " ") (by simp at h ⊢; omega)
      simp only [writeScopes, hidx, ne_eq, not_false_eq_true, if_true] at hrec ⊢
      rw [hrec]
      simp [joinChars]

theorem splitChars_double_sep (sep : Char) (u v : List Char) :
    ∃ w ws, splitChars sep (u ++ sep :: sep :: v) = w :: ws ∧ [] ∈ ws := by
  induction u with
  | nil => exact ⟨[], [] :: splitChars sep v, by simp [splitChars], by simp⟩
  | cons c cs ih =>
    obtain ⟨w, ws, hsp, hmem⟩ := ih
    by_cases h : c = sep
    · refine ⟨[], w :: ws, ?_, by simp [hmem]⟩
      simp [splitChars, h, hsp]
    · refine ⟨c :: w, ws, ?_, hmem⟩
      have h2 : splitChars sep (c :: (cs ++ sep :: sep :: v)) = (c :: w) :: ws := by
        simp [splitChars, h, hsp]
      simpa using h2

theorem stringsSplit_data (s : String) :
    (stringsSplit s).map String.data = splitChars ' ' s.data := by
  simp [stringsSplit, List.map_map, Function.comp_def]

theorem joinStrings_stringsSplit (s : String) : joinStrings (stringsSplit s) = s := by
  simp [joinStrings, stringsSplit_data, joinChars_splitChars]

theorem stringsSplit_no_space (s p : String) (hp : p ∈ stringsSplit s) : ' ' ∉ p.data := by
  have h : p.data ∈ (stringsSplit s).map String.data := List.mem_map_of_mem _ hp
  rw [stringsSplit_data] at h
  exact not_mem_of_mem_splitChars ' ' s.data p.data h

theorem stringsSplit_joinStrings (l : List String) (hl : l ≠ [])
    (hsp : ∀ s ∈ l, ' ' ∉ s.data) : stringsSplit (joinStrings l) = l := by
  have h1 : l.map String.data ≠ [] := by simpa using hl
  have h2 : ∀ w ∈ l.map String.data, ' ' ∉ w := by
    intro w hw
    obtain ⟨x, hx, rfl⟩ := List.mem_map.mp hw
    exact hsp x hx
  simp [stringsSplit, joinStrings, splitChars_joinChars ' ' _ h1 h2, List.map_map,
    Function.comp_def]

theorem writeScopes_eq_joinStrings (order : List String) :
    writeScopes (order.length : Int) order 0 "" = joinStrings order := by
  have h := writeScopes_data (order.length : Int) order 0 "" (by simp)
  have h2 : (writeScopes (order.length : Int) order 0 "").data = (joinStrings order).data := by
    simpa [joinStrings] using h
  exact String.ext h2

theorem ScopeSet.length_keys (sc : ScopeSet) : sc.keys.length = sc.len := by
  cases sc <;> simp [ScopeSet.keys, ScopeSet.len, mapKeys, mapLen]

/-! ## Claims codec: decoding -/

/-- C8. Subject decoding: `MapClaimsToAuthClaims m` fails exactly when `m` has a
`sub` entry that is not a string, the error is then `InvalidSubject`; otherwise
it succeeds, with the `sub` string as subject when present and the empty
subject when `sub` is absent. -/
theorem subject_decoding (m : MapClaims) :
    ((∃ e, MapClaimsToAuthClaims m = .error e) ↔
        ∃ v, mapGet m "sub" = some v ∧ ∀ s, v ≠ JVal.str s) ∧
    (∀ e, MapClaimsToAuthClaims m = .error e → e = AuthError.InvalidSubject) ∧
    (∀ s, mapGet m "sub" = some (JVal.str s) →
        ∃ c, MapClaimsToAuthClaims m = .ok c ∧ c.Subject = s) ∧
    (mapGet m "sub" = none → ∃ c, MapClaimsToAuthClaims m = .ok c ∧ c.Subject = "") := by
  unfold MapClaimsToAuthClaims
  cases h : mapGet m "sub" with
  | none => simp
  | some v => cases v <;> simp

/-- C9. Scope decoding: when `sub` is absent or a string, decoding succeeds with
a non-nil scope set without duplicate keys; it is empty when `scope` is absent
or not a string, and when `scope` is a string `s` its members are exactly the
pieces of `s` split at every space: pieces that contain no space and that give
`s` back when joined with single spaces. The empty string yields the set whose
only member is the empty string, and two consecutive spaces yield an
empty-string member. -/
theorem scope_decoding (m : MapClaims)
    (hsub : mapGet m "sub" = none ∨ ∃ s, mapGet m "sub" = some (JVal.str s)) :
    ∃ c sc, MapClaimsToAuthClaims m = .ok c ∧ c.Scopes = some sc ∧ (mapKeys sc).Nodup ∧
      ((∀ s, mapGet m "scope" ≠ some (JVal.str s)) → sc = []) ∧
      (∀ s, mapGet m "scope" = some (JVal.str s) →
        (∀ x, x ∈ mapKeys sc ↔ x ∈ stringsSplit s) ∧
        (∀ x b, (x, b) ∈ sc → b = true) ∧
        joinStrings (stringsSplit s) = s ∧
        (∀ p ∈ stringsSplit s, ' ' ∉ p.data) ∧
        (s = "" → mapKeys sc = [""]) ∧
        (∀ u v : String, s = u ++ "  " ++ v → "" ∈ mapKeys sc)) := by
  have hsubj : ∃ subj, (match mapGet m "sub" with
      | none => (Except.ok "" : Except AuthError String)
      | some (JVal.str s) => .ok s
      | some _ => .error AuthError.InvalidSubject) = .ok subj := by
    rcases hsub with h | ⟨s, h⟩
    · exact ⟨"", by rw [h]⟩
    · exact ⟨s, by rw [h]⟩
  obtain ⟨subj, hsubj⟩ := hsubj
  cases hscope : mapGet m "scope" with
  | none =>
    refine ⟨⟨subj, some []⟩, [], ?_, rfl, by simp [mapKeys], fun _ => rfl, ?_⟩
    · simp [MapClaimsToAuthClaims, hsubj, hscope]
    · intro s hs
      exact absurd hs (by simp)
  | some v =>
    cases v with
    | str s =>
      refine ⟨⟨subj, some (insertScopes [] (stringsSplit s))⟩, insertScopes [] (stringsSplit s),
        ?_, rfl, nodup_mapKeys_insertScopes _ [] (by simp [mapKeys]), ?_, ?_⟩
      · simp [MapClaimsToAuthClaims, hsubj, hscope]
      · intro h
        exact absurd rfl (h s)
      · intro s2 hs2
        have hs : s = s2 := by
          have := Option.some.inj hs2
          exact JVal.str.inj this
        subst hs
        have hkeys : ∀ x, x ∈ mapKeys (insertScopes [] (stringsSplit s)) ↔ x ∈ stringsSplit s := by
          intro x
          rw [mem_mapKeys_insertScopes]
          simp [mapKeys]
        refine ⟨hkeys, values_insertScopes_true _ [] (by simp), joinStrings_stringsSplit s,
          fun p hp => stringsSplit_no_space s p hp, ?_, ?_⟩
        · intro hempty
          subst hempty
          rfl
        · intro u v huv
          rw [hkeys]
          obtain ⟨w, ws, hsp, hmem⟩ := splitChars_double_sep ' ' u.data v.data
          have hdata : s.data = u.data ++ ' ' :: ' ' :: v.data := by
            rw [huv]
            simp
          have : ([] : List Char) ∈ splitChars ' ' s.data := by
            rw [hdata, hsp]
            exact List.mem_cons_of_mem _ hmem
          have h2 := List.mem_map_of_mem String.mk this
          exact h2
    | num n =>
      refine ⟨⟨subj, some []⟩, [], ?_, rfl, by simp [mapKeys], fun _ => rfl, ?_⟩
      · simp [MapClaimsToAuthClaims, hsubj, hscope]
      · intro s hs
        exact absurd hs (by simp)
    | bool b =>
      refine ⟨⟨subj, some []⟩, [], ?_, rfl, by simp [mapKeys], fun _ => rfl, ?_⟩
      · simp [MapClaimsToAuthClaims, hsubj, hscope]
      · intro s hs
        exact absurd hs (by simp)
    | null =>
      refine ⟨⟨subj, some []⟩, [], ?_, rfl, by simp [mapKeys], fun _ => rfl, ?_⟩
      · simp [MapClaimsToAuthClaims, hsubj, hscope]
      · intro s hs
        exact absurd hs (by simp)
    | obj kvs =>
      refine ⟨⟨subj, some []⟩, [], ?_, rfl, by simp [mapKeys], fun _ => rfl, ?_⟩
      · simp [MapClaimsToAuthClaims, hsubj, hscope]
      · intro s hs
        exact absurd hs (by simp)
    | strs xs =>
      refine ⟨⟨subj, some []⟩, [], ?_, rfl, by simp [mapKeys], fun _ => rfl, ?_⟩
      · simp [MapClaimsToAuthClaims, hsubj, hscope]
      · intro s hs
        exact absurd hs (by simp)
    | list xs =>
      refine ⟨⟨subj, some []⟩, [], ?_, rfl, by simp [mapKeys], fun _ => rfl, ?_⟩
      · simp [MapClaimsToAuthClaims, hsubj, hscope]
      · intro s hs
        exact absurd hs (by simp)

/-- Witness for C9: the claim set with subject `alice` and scope string
`read  write` (two spaces) decodes to the scopes `read`, the empty string and
`write`. -/
theorem scope_decoding_witness :
    (∃ s, mapGet [("sub", JVal.str "alice"), ("scope", JVal.str "read  write")] "sub"
        = some (JVal.str s)) ∧
    ∃ c sc, MapClaimsToAuthClaims [("sub", JVal.str "alice"), ("scope", JVal.str "read  write")]
        = .ok c ∧ c.Scopes = some sc ∧ (mapKeys sc).Nodup ∧
      ((∀ s, mapGet [("sub", JVal.str "alice"), ("scope", JVal.str "read  write")] "scope"
          ≠ some (JVal.str s)) → sc = []) ∧
      (∀ s, mapGet [("sub", JVal.str "alice"), ("scope", JVal.str "read  write")] "scope"
          = some (JVal.str s) →
        (∀ x, x ∈ mapKeys sc ↔ x ∈ stringsSplit s) ∧
        (∀ x b, (x, b) ∈ sc → b = true) ∧
        joinStrings (stringsSplit s) = s ∧
        (∀ p ∈ stringsSplit s, ' ' ∉ p.data) ∧
        (s = "" → mapKeys sc = [""]) ∧
        (∀ u v : String, s = u ++ "  " ++ v → "" ∈ mapKeys sc)) :=
  ⟨⟨"alice", rfl⟩,
    scope_decoding [("sub", JVal.str "alice"), ("scope", JVal.str "read  write")]
      (Or.inr ⟨"alice", rfl⟩)⟩

/-! ## Claims codec: encoding and round trip -/

theorem AuthClaimsToJwtClaims_eq (c : AuthClaims) (order : List String)
    (horder : order.Perm c.Scopes.keys) :
    AuthClaimsToJwtClaims c order =
      if (joinStrings order).length > 0 then
        [("sub", JVal.str c.Subject), ("scope", JVal.str (joinStrings order))]
      else [("sub", JVal.str c.Subject)] := by
  have hlen : (c.Scopes.len : Int) = (order.length : Int) := by
    rw [← ScopeSet.length_keys, horder.length_eq]
  have hne : ¬ ("sub" = "scope") := by decide
  simp only [AuthClaimsToJwtClaims, hlen, writeScopes_eq_joinStrings]
  split <;> simp [mapSet, hne]

theorem joinStrings_nil : joinStrings [] = "" := rfl

theorem joinStrings_length_eq_zero (order : List String) (hne : order ≠ [])
    (h : (joinStrings order).length = 0) : order = [""] := by
  have h1 : joinChars ' ' (order.map String.data) = [] := by
    simpa [joinStrings, String.length] using h
  have h2 := joinChars_eq_nil ' ' (order.map String.data) (by simpa using hne) h1
  cases order with
  | nil => exact absurd rfl hne
  | cons s rest =>
    cases rest with
    | nil =>
      have h3 : s.data = [] := by simpa using h2
      have h4 : s = "" := String.ext h3
      rw [h4]
    | cons s2 rest2 => simp at h2

/-- C10. Claim encoding: the encoded claim set always has a `sub` entry equal to
the subject (also the empty one), and it has a `scope` entry only if the scope
set is non-empty; with an empty or nil scope set there is no `scope` key. -/
theorem claim_encoding (c : AuthClaims) (order : List String)
    (horder : order.Perm c.Scopes.keys) :
    mapGet (AuthClaimsToJwtClaims c order) "sub" = some (JVal.str c.Subject) ∧
    (mapGet (AuthClaimsToJwtClaims c order) "scope" ≠ none → 0 < c.Scopes.len) ∧
    (c.Scopes.len = 0 → mapGet (AuthClaimsToJwtClaims c order) "scope" = none) := by
  have hne : ¬ ("sub" = "scope") := by decide
  have hempty : c.Scopes.len = 0 → mapGet (AuthClaimsToJwtClaims c order) "scope" = none := by
    intro h0
    have hk : c.Scopes.keys = [] := List.length_eq_zero.mp (by rw [ScopeSet.length_keys, h0])
    have ho : order = [] := by
      rw [hk] at horder
      exact List.Perm.eq_nil horder
    rw [AuthClaimsToJwtClaims_eq c order horder, ho]
    simp [joinStrings_nil, mapGet, hne]
  refine ⟨?_, ?_, hempty⟩
  · rw [AuthClaimsToJwtClaims_eq c order horder]
    split <;> simp [mapGet]
  · intro h
    by_contra hlen
    exact h (hempty (by omega))

/-- Witness for C10: subject `alice` with scopes `read` and `write`, ranged in
the order `write`, `read`. -/
theorem claim_encoding_witness :
    ["write", "read"].Perm
      (ScopeSet.keys (some [("read", true), ("write", true)])) ∧
    mapGet (AuthClaimsToJwtClaims ⟨"alice", some [("read", true), ("write", true)]⟩
      ["write", "read"]) "sub" = some (JVal.str "alice") ∧
    (mapGet (AuthClaimsToJwtClaims ⟨"alice", some [("read", true), ("write", true)]⟩
      ["write", "read"]) "scope" ≠ none →
      0 < ScopeSet.len (some [("read", true), ("write", true)])) ∧
    (ScopeSet.len (some [("read", true), ("write", true)]) = 0 →
      mapGet (AuthClaimsToJwtClaims ⟨"alice", some [("read", true), ("write", true)]⟩
        ["write", "read"]) "scope" = none) :=
  ⟨List.Perm.swap "read" "write" [],
    claim_encoding ⟨"alice", some [("read", true), ("write", true)]⟩ ["write", "read"]
      (List.Perm.swap "read" "write" [])⟩

/-- Counterexample to C1 as stated: the claims with subject `alice` and the
single scope `a b` (a scope containing a space) encode to the scope string
`a b`, which decodes to the two scopes `a` and `b`; the round trip does not
give the scope set back. -/
theorem round_trip_counterexample :
    ["a b"].Perm (ScopeSet.keys (some [("a b", true)])) ∧
    MapClaimsToAuthClaims (AuthClaimsToJwtClaims ⟨"alice", some [("a b", true)]⟩ ["a b"])
      = .ok ⟨"alice", some [("a", true), ("b", true)]⟩ ∧
    ¬ RoundTrip ⟨"alice", some [("a b", true)]⟩ ["a b"] := by
  refine ⟨List.Perm.refl _, rfl, ?_⟩
  rintro ⟨c2, hdec, _, hkeys⟩
  have heval : MapClaimsToAuthClaims
      (AuthClaimsToJwtClaims ⟨"alice", some [("a b", true)]⟩ ["a b"])
      = .ok ⟨"alice", some [("a", true), ("b", true)]⟩ := rfl
  rw [heval] at hdec
  have hc : c2 = ⟨"alice", some [("a", true), ("b", true)]⟩ := (Except.ok.inj hdec).symm
  subst hc
  have h := (hkeys "a").mp (by simp [ScopeSet.keys, mapKeys])
  simp [ScopeSet.keys, mapKeys] at h

/-- C1, amended. Round trip through the codec: for every claims record whose
scopes contain no space character and whose scope set is not the singleton of
the empty string, and for every iteration order of its scope set, decoding the
encoded claim set succeeds with the same subject and the same scopes as a
set. -/
theorem round_trip (c : AuthClaims) (order : List String)
    (horder : order.Perm c.Scopes.keys)
    (hspace : ∀ s ∈ c.Scopes.keys, ' ' ∉ s.data)
    (hsingle : c.Scopes.keys ≠ [""]) :
    RoundTrip c order := by
  have hne : ¬ ("sub" = "scope") := by decide
  have hne2 : ¬ ("scope" = "sub") := by decide
  unfold RoundTrip
  rw [AuthClaimsToJwtClaims_eq c order horder]
  by_cases hlen : (joinStrings order).length > 0
  · have hnil : order ≠ [] := by
      rintro rfl
      simp [joinStrings_nil] at hlen
    have hsp : ∀ s ∈ order, ' ' ∉ s.data := fun s hs => hspace s (horder.mem_iff.mp hs)
    refine ⟨⟨c.Subject, some (insertScopes [] order)⟩, ?_, rfl, ?_⟩
    · simp [hlen, MapClaimsToAuthClaims, mapGet, hne, hne2,
        stringsSplit_joinStrings order hnil hsp]
    · intro s
      show s ∈ mapKeys (insertScopes [] order) ↔ s ∈ c.Scopes.keys
      rw [mem_mapKeys_insertScopes, horder.mem_iff]
      simp [mapKeys]
  · by_cases hnil : order = []
    · subst hnil
      have hk : c.Scopes.keys = [] := List.Perm.eq_nil horder.symm
      refine ⟨⟨c.Subject, some []⟩, ?_, rfl, ?_⟩
      · simp [joinStrings_nil, MapClaimsToAuthClaims, mapGet, hne, hne2]
      · intro s
        show s ∈ mapKeys ([] : List (String × Bool)) ↔ s ∈ c.Scopes.keys
        rw [hk]
        simp [mapKeys]
    · exfalso
      have h1 := joinStrings_length_eq_zero order hnil (by omega)
      rw [h1] at horder
      exact hsingle (List.perm_singleton.mp horder.symm)

/-- Witness for C1 (amended): subject `alice`, scopes `read` and `write`, ranged
in the order `write`, `read`. -/
theorem round_trip_witness :
    (["write", "read"].Perm (ScopeSet.keys (some [("read", true), ("write", true)])) ∧
      (∀ s ∈ ScopeSet.keys (some [("read", true), ("write", true)]), ' ' ∉ s.data) ∧
      ScopeSet.keys (some [("read", true), ("write", true)]) ≠ [""]) ∧
    RoundTrip ⟨"alice", some [("read", true), ("write", true)]⟩ ["write", "read"] :=
  have h1 : ["write", "read"].Perm (ScopeSet.keys (some [("read", true), ("write", true)])) :=
    List.Perm.swap "read" "write" []
  have h2 : ∀ s ∈ ScopeSet.keys (some [("read", true), ("write", true)]), ' ' ∉ s.data := by
    simp [ScopeSet.keys, mapKeys]
  have h3 : ScopeSet.keys (some [("read", true), ("write", true)]) ≠ [""] := by
    simp [ScopeSet.keys, mapKeys]
  ⟨⟨h1, h2, h3⟩, round_trip ⟨"alice", some [("read", true), ("write", true)]⟩
    ["write", "read"] h1 h2 h3⟩

/-! ## Failure classification -/

theorem ne_zero_iff_exists_testBit (x : Nat) : x ≠ 0 ↔ ∃ i, x.testBit i = true := by
  constructor
  · exact Nat.ne_zero_implies_bit_true
  · rintro ⟨i, hi⟩ rfl
    simp at hi

theorem and_malformed_ne_zero (e : Nat) :
    e &&& ValidationErrorMalformed ≠ 0 ↔ e.testBit 0 = true := by
  have h : ValidationErrorMalformed = 2 ^ 0 := rfl
  rw [ne_zero_iff_exists_testBit, h]
  constructor
  · rintro ⟨i, hi⟩
    rw [Nat.testBit_and, Nat.testBit_two_pow] at hi
    simp only [Bool.and_eq_true, decide_eq_true_eq] at hi
    rw [hi.2]
    exact hi.1
  · intro h0
    exact ⟨0, by rw [Nat.testBit_and, Nat.testBit_two_pow]; simp [h0]⟩

theorem and_expired_ne_zero (e : Nat) :
    e &&& (ValidationErrorExpired ||| ValidationErrorNotValidYet) ≠ 0
      ↔ (e.testBit 4 = true ∨ e.testBit 7 = true) := by
  have h4 : ValidationErrorExpired = 2 ^ 4 := rfl
  have h7 : ValidationErrorNotValidYet = 2 ^ 7 := rfl
  rw [ne_zero_iff_exists_testBit, h4, h7]
  constructor
  · rintro ⟨i, hi⟩
    rw [Nat.testBit_and, Nat.testBit_or, Nat.testBit_two_pow, Nat.testBit_two_pow] at hi
    simp only [Bool.and_eq_true, Bool.or_eq_true, decide_eq_true_eq] at hi
    rcases hi.2 with h | h
    · left
      rw [h]
      exact hi.1
    · right
      rw [h]
      exact hi.1
  · rintro (h | h)
    · exact ⟨4, by
        rw [Nat.testBit_and, Nat.testBit_or, Nat.testBit_two_pow, Nat.testBit_two_pow]
        simp [h]⟩
    · exact ⟨7, by
        rw [Nat.testBit_and, Nat.testBit_or, Nat.testBit_two_pow, Nat.testBit_two_pow]
        simp [h]⟩

theorem classify_eq (errors : Nat) :
    (if errors &&& ValidationErrorMalformed ≠ 0 then
        (Except.error AuthError.InvalidToken : Except AuthError AuthClaims)
      else if errors &&& (ValidationErrorExpired ||| ValidationErrorNotValidYet) ≠ 0 then
        .error AuthError.TokenExpired
      else .error AuthError.InvalidToken)
      = .error (classifyParseError (.validation errors)) := by
  by_cases h0 : errors.testBit 0 = true
  · have := (and_malformed_ne_zero errors).mpr h0
    simp [classifyParseError, this, h0]
  · have hm : ¬ (errors &&& ValidationErrorMalformed ≠ 0) :=
      fun h => h0 ((and_malformed_ne_zero errors).mp h)
    by_cases h1 : errors.testBit 4 = true ∨ errors.testBit 7 = true
    · have he := (and_expired_ne_zero errors).mpr h1
      rw [if_neg hm, if_pos he]
      simp only [classifyParseError, h0, Bool.false_eq_true, if_false]
      rcases h1 with h1 | h1 <;> simp [h1]
    · have he : ¬ (errors &&& (ValidationErrorExpired ||| ValidationErrorNotValidYet) ≠ 0) :=
        fun h => h1 ((and_expired_ne_zero errors).mp h)
      rw [if_neg hm, if_neg he]
      have h4 : errors.testBit 4 = false := by
        cases h : errors.testBit 4
        · rfl
        · exact absurd (Or.inl h) h1
      have h7 : errors.testBit 7 = false := by
        cases h : errors.testBit 7
        · rfl
        · exact absurd (Or.inr h) h1
      simp [classifyParseError, h0, h4, h7]

theorem jwt_authenticate_of_fail (jwtParse : Parse) (a : Jwt.Authenticator) (s : String)
    (t : Option Token) (err : GoError) (h : a.parseToken jwtParse s = .fail t err) :
    a.Authenticate jwtParse (.ok s) = .error (classifyParseError err) := by
  simp only [Jwt.Authenticator.Authenticate, h]
  cases err with
  | authn e => rfl
  | validation errors => exact classify_eq errors
  | other msg => rfl

theorem oidc_authenticate_of_fail (jwtParse : Parse) (o : Oidc.Authenticator) (s : String)
    (t : Option Token) (err : GoError) (h : o.parseToken jwtParse s = .fail t err) :
    o.Authenticate jwtParse (.ok s) = .error (classifyParseError err) := by
  simp only [Oidc.Authenticator.Authenticate, h]
  cases err with
  | authn e => rfl
  | validation errors => exact classify_eq errors
  | other msg => rfl

/-- C4. Failure classification of a parse error, the same in the shared-secret
and the dynamic-key `Authenticate`: `Unauthenticated` when the error is not a
validation error; else `InvalidToken` when the flags include "malformed"; else
`TokenExpired` when they include "expired" or "not valid yet", whatever the
other flags; else `InvalidToken`. Both authenticators return that one kind. -/
theorem parse_error_classification (jwtParse : Parse) (a : Jwt.Authenticator)
    (o : Oidc.Authenticator) (s1 s2 : String) (t1 t2 : Option Token) (err : GoError)
    (h1 : a.parseToken jwtParse s1 = .fail t1 err)
    (h2 : o.parseToken jwtParse s2 = .fail t2 err) :
    a.Authenticate jwtParse (.ok s1) = .error (classifyParseError err) ∧
    o.Authenticate jwtParse (.ok s2) = .error (classifyParseError err) :=
  ⟨jwt_authenticate_of_fail jwtParse a s1 t1 err h1,
    oidc_authenticate_of_fail jwtParse o s2 t2 err h2⟩

/-- Witness for C4: a token that is expired and whose signature is invalid is
reported as `TokenExpired` by both authenticators. -/
theorem parse_error_classification_witness :
    (sharedSecretHS256.parseToken parseExpiredBadSignature "tok"
        = .fail none (.validation (ValidationErrorExpired ||| ValidationErrorSignatureInvalid)) ∧
      dynamicKeyIdp.parseToken parseExpiredBadSignature "tok"
        = .fail none (.validation (ValidationErrorExpired ||| ValidationErrorSignatureInvalid))) ∧
    classifyParseError (.validation (ValidationErrorExpired ||| ValidationErrorSignatureInvalid))
      = AuthError.TokenExpired ∧
    sharedSecretHS256.Authenticate parseExpiredBadSignature (.ok "tok")
      = .error (classifyParseError
          (.validation (ValidationErrorExpired ||| ValidationErrorSignatureInvalid))) ∧
    dynamicKeyIdp.Authenticate parseExpiredBadSignature (.ok "tok")
      = .error (classifyParseError
          (.validation (ValidationErrorExpired ||| ValidationErrorSignatureInvalid))) :=
  ⟨⟨rfl, rfl⟩, by decide,
    parse_error_classification parseExpiredBadSignature sharedSecretHS256 dynamicKeyIdp
      "tok" "tok" none none _ rfl rfl⟩

/-! ## Algorithm mismatch in shared-secret mode -/

/-- Counterexample to C2 as stated: the authenticator built for `s3cr3t` and
HS256 is presented a token that declares RS256 and whose signature check
fails; `Authenticate` answers `InvalidToken`, not `UnsupportedSigningMethod`. -/
theorem wrong_algorithm_counterexample :
    Jwt.NewAuthenticator "s3cr3t" "HS256" = .ok sharedSecretHS256 ∧
    sharedSecretHS256.parseToken parseSignatureInvalid "tok"
      = .fail (some rs256Token) (.validation ValidationErrorSignatureInvalid) ∧
    rs256Token.Method ≠ sharedSecretHS256.signingMethod ∧
    sharedSecretHS256.Authenticate parseSignatureInvalid (.ok "tok")
      = .error AuthError.InvalidToken ∧
    sharedSecretHS256.Authenticate parseSignatureInvalid (.ok "tok")
      ≠ .error AuthError.UnsupportedSigningMethod := by
  refine ⟨rfl, rfl, by decide, rfl, ?_⟩
  intro h
  have h2 : sharedSecretHS256.Authenticate parseSignatureInvalid (.ok "tok")
      = .error AuthError.InvalidToken := rfl
  rw [h2] at h
  exact absurd (Except.error.inj h) (by decide)

/-- C2, amended. In the shared-secret `Authenticate`, every token that parses
without error, is valid, and declares a signing method different from the
configured one yields `UnsupportedSigningMethod`. (A token whose parse fails
is classified from the parse error alone.) -/
theorem wrong_algorithm_rejected (jwtParse : Parse) (a : Jwt.Authenticator) (s : String)
    (token : Token) (hparse : a.parseToken jwtParse s = .ok token)
    (hvalid : token.Valid = true) (hmethod : token.Method ≠ a.signingMethod) :
    a.Authenticate jwtParse (.ok s) = .error AuthError.UnsupportedSigningMethod := by
  simp [Jwt.Authenticator.Authenticate, hparse, hvalid, hmethod]

/-- Witness for C2 (amended): a valid HS512 token presented to the HS256
authenticator. -/
theorem wrong_algorithm_rejected_witness :
    (sharedSecretHS256.parseToken parseValidHS512 "tok"
        = .ok { Method := some .HS512, Claims := .map [("sub", JVal.str "alice")], Valid := true } ∧
      some SigningMethod.HS512 ≠ sharedSecretHS256.signingMethod) ∧
    sharedSecretHS256.Authenticate parseValidHS512 (.ok "tok")
      = .error AuthError.UnsupportedSigningMethod :=
  ⟨⟨rfl, by decide⟩,
    wrong_algorithm_rejected parseValidHS512 sharedSecretHS256 "tok"
      { Method := some .HS512, Claims := .map [("sub", JVal.str "alice")], Valid := true }
      rfl rfl (by decide)⟩

/-! ## Missing credential -/

/-- Counterexample to C3 as stated: the noop authenticator, on a request whose
credential extraction fails, succeeds with the anonymous identity instead of
returning `MissingBearerToken`. -/
theorem missing_bearer_counterexample :
    Noop.Authenticator.Authenticate {} (.error (.other "no bearer credential"))
      = .ok { Subject := "", Scopes := none } ∧
    Noop.Authenticator.Authenticate {} (.error (.other "no bearer credential"))
      ≠ .error AuthError.MissingBearerToken := by
  refine ⟨rfl, ?_⟩
  intro h
  have h2 : Noop.Authenticator.Authenticate {} (.error (.other "no bearer credential"))
      = .ok { Subject := "", Scopes := none } := rfl
  rw [h2] at h
  cases h

/-- C3, amended. For the shared-secret, dynamic-key and preshared-key
authenticators, `Authenticate` on a request whose credential extraction fails
returns `MissingBearerToken` and no claims; the noop authenticator does not
read the request and succeeds with the anonymous identity. -/
theorem missing_bearer (jwtParse : Parse) (a : Jwt.Authenticator) (o : Oidc.Authenticator)
    (pka : Presharedkey.Authenticator) (n : Noop.Authenticator) (e : GoError) :
    a.Authenticate jwtParse (.error e) = .error AuthError.MissingBearerToken ∧
    o.Authenticate jwtParse (.error e) = .error AuthError.MissingBearerToken ∧
    pka.Authenticate (.error e) = .error AuthError.MissingBearerToken ∧
    n.Authenticate (.error e) = .ok { Subject := "", Scopes := none } :=
  ⟨rfl, rfl, rfl, rfl⟩

/-! ## Successful authentication -/

theorem MapClaimsToAuthClaims_scopes (m : MapClaims) (c : AuthClaims)
    (h : MapClaimsToAuthClaims m = .ok c) :
    ∃ sc, c.Scopes = some sc ∧ (mapGet m "scope" = none → sc = []) := by
  unfold MapClaimsToAuthClaims at h
  cases hsub : mapGet m "sub" with
  | none =>
    simp only [hsub] at h
    have hc := Except.ok.inj h
    subst hc
    exact ⟨_, rfl, fun hs => by simp [hs]⟩
  | some v =>
    cases v with
    | str s =>
      simp only [hsub] at h
      have hc := Except.ok.inj h
      subst hc
      exact ⟨_, rfl, fun hs => by simp [hs]⟩
    | num n => simp [hsub] at h
    | bool b => simp [hsub] at h
    | null => simp [hsub] at h
    | obj kvs => simp [hsub] at h
    | strs xs => simp [hsub] at h
    | list xs => simp [hsub] at h

theorem jwt_authenticate_ok (jwtParse : Parse) (a : Jwt.Authenticator) (md : Extraction)
    (c : AuthClaims) (h : a.Authenticate jwtParse md = .ok c) :
    ∃ s m, md = .ok s ∧ tokenMapClaims (a.parseToken jwtParse s) = some m ∧
      MapClaimsToAuthClaims m = .ok c := by
  cases md with
  | error e => simp [Jwt.Authenticator.Authenticate] at h
  | ok s =>
    refine ⟨s, ?_⟩
    simp only [Jwt.Authenticator.Authenticate] at h
    cases hp : a.parseToken jwtParse s with
    | fail t err =>
      rw [hp] at h
      cases err with
      | authn e => simp at h
      | validation errors =>
        simp only at h
        split at h
        · simp at h
        · split at h <;> simp at h
      | other msg => simp at h
    | ok token =>
      rw [hp] at h
      simp only at h
      split at h
      · simp at h
      · split at h
        · simp at h
        · cases hc : token.Claims with
          | nil => simp [hc] at h
          | other => simp [hc] at h
          | map m =>
            simp only [hc] at h
            exact ⟨m, rfl, by simp [tokenMapClaims, hc], h⟩

theorem oidc_authenticate_ok (jwtParse : Parse) (o : Oidc.Authenticator) (md : Extraction)
    (c : AuthClaims) (h : o.Authenticate jwtParse md = .ok c) :
    ∃ s m, md = .ok s ∧ tokenMapClaims (o.parseToken jwtParse s) = some m ∧
      MapClaimsToAuthClaims m = .ok c := by
  cases md with
  | error e => simp [Oidc.Authenticator.Authenticate] at h
  | ok s =>
    refine ⟨s, ?_⟩
    simp only [Oidc.Authenticator.Authenticate] at h
    cases hp : o.parseToken jwtParse s with
    | fail t err =>
      rw [hp] at h
      cases err with
      | authn e => simp at h
      | validation errors =>
        simp only at h
        split at h
        · simp at h
        · split at h <;> simp at h
      | other msg => simp at h
    | ok token =>
      rw [hp] at h
      simp only at h
      split at h
      · simp at h
      · cases hc : token.Claims with
        | nil => simp [hc] at h
        | other => simp [hc] at h
        | map m =>
          simp only [hc] at h
          split at h
          · simp at h
          · split at h
            · simp at h
            · exact ⟨m, rfl, by simp [tokenMapClaims, hc], h⟩

/-- Counterexample to C5 as stated: the noop authenticator succeeds with a
claims record whose `Scopes` is the nil map, and so does the preshared-key
authenticator on a configured key. -/
theorem scopes_nil_counterexample :
    (∃ c, Noop.Authenticator.Authenticate {} (.ok "anything") = .ok c ∧ c.Scopes = none) ∧
    (∃ a c, Presharedkey.NewAuthenticator ["k1"] = .ok a ∧
      a.Authenticate (.ok "k1") = .ok c ∧ c.Scopes = none) :=
  ⟨⟨{ Subject := "", Scopes := none }, rfl, rfl⟩,
    ⟨{ ValidKeys := [("k1", true)] }, { Subject := "", Scopes := none }, rfl, rfl, rfl⟩⟩

/-- C5, amended. Every successful `Authenticate` of the shared-secret and of the
dynamic-key authenticator returns claims decoded from the token claim set,
whose `Scopes` is a non-nil set, empty when the token has no `scope` claim.
The preshared-key and noop authenticators return the anonymous identity with
a nil `Scopes` map (of length 0). -/
theorem scopes_after_success (jwtParse : Parse) (a : Jwt.Authenticator)
    (o : Oidc.Authenticator) (pka : Presharedkey.Authenticator) (n : Noop.Authenticator)
    (md : Extraction) :
    (∀ c, a.Authenticate jwtParse md = .ok c →
      ∃ s m sc, md = .ok s ∧ tokenMapClaims (a.parseToken jwtParse s) = some m ∧
        c.Scopes = some sc ∧ (mapGet m "scope" = none → sc = [])) ∧
    (∀ c, o.Authenticate jwtParse md = .ok c →
      ∃ s m sc, md = .ok s ∧ tokenMapClaims (o.parseToken jwtParse s) = some m ∧
        c.Scopes = some sc ∧ (mapGet m "scope" = none → sc = [])) ∧
    (∀ c, pka.Authenticate md = .ok c → c.Scopes = none ∧ c.Scopes.len = 0) ∧
    (∀ c, n.Authenticate md = .ok c → c.Scopes = none ∧ c.Scopes.len = 0) := by
  refine ⟨?_, ?_, ?_, ?_⟩
  · intro c h
    obtain ⟨s, m, hmd, htok, hdec⟩ := jwt_authenticate_ok jwtParse a md c h
    obtain ⟨sc, hsc, hempty⟩ := MapClaimsToAuthClaims_scopes m c hdec
    exact ⟨s, m, sc, hmd, htok, hsc, hempty⟩
  · intro c h
    obtain ⟨s, m, hmd, htok, hdec⟩ := oidc_authenticate_ok jwtParse o md c h
    obtain ⟨sc, hsc, hempty⟩ := MapClaimsToAuthClaims_scopes m c hdec
    exact ⟨s, m, sc, hmd, htok, hsc, hempty⟩
  · intro c h
    cases md with
    | error e => simp [Presharedkey.Authenticator.Authenticate] at h
    | ok t =>
      simp only [Presharedkey.Authenticator.Authenticate] at h
      cases hk : mapGet pka.ValidKeys t with
      | none => simp [hk] at h
      | some b =>
        simp only [hk] at h
        have hc := Except.ok.inj h
        subst hc
        exact ⟨rfl, rfl⟩
  · intro c h
    have hc := Except.ok.inj h
    subst hc
    exact ⟨rfl, rfl⟩

/-- Witness for C5 (amended): tokens without a `scope` claim are accepted by the
shared-secret and by the dynamic-key authenticator with the empty, non-nil
scope set. -/
theorem scopes_after_success_witness :
    sharedSecretHS256.Authenticate parseValidAlice (.ok "tok")
      = .ok { Subject := "alice", Scopes := some [] } ∧
    dynamicKeyIdp.Authenticate parseValidIdp (.ok "tok")
      = .ok { Subject := "alice", Scopes := some [] } ∧
    (∃ s m sc, (Except.ok "tok" : Extraction) = .ok s ∧
      tokenMapClaims (sharedSecretHS256.parseToken parseValidAlice s) = some m ∧
      (AuthClaims.mk "alice" (some [])).Scopes = some sc ∧
      (mapGet m "scope" = none → sc = [])) :=
  ⟨rfl, rfl,
    (scopes_after_success parseValidAlice sharedSecretHS256 dynamicKeyIdp
      { ValidKeys := [("k1", true)] } {} (.ok "tok")).1 _ rfl⟩

/-! ## Preshared keys -/

/-- C6. Preshared-key membership: for a non-empty key list `ks` and a presented
credential `t`, `NewAuthenticator ks` succeeds and `Authenticate` on the built
authenticator succeeds exactly when `t` is an element of `ks`; on success the
identity is anonymous (empty subject, no scopes), on failure the error is
`Unauthenticated`. -/
theorem preshared_membership (ks : List String) (t : String) (hks : ks ≠ []) :
    ∃ a, Presharedkey.NewAuthenticator ks = .ok a ∧
      ((∃ c, a.Authenticate (.ok t) = .ok c) ↔ t ∈ ks) ∧
      (∀ c, a.Authenticate (.ok t) = .ok c → c.Subject = "" ∧ c.Scopes.keys = []) ∧
      (t ∈ ks → a.Authenticate (.ok t) = .ok { Subject := "", Scopes := none }) ∧
      (t ∉ ks → a.Authenticate (.ok t) = .error AuthError.Unauthenticated) := by
  have hlen : ¬ ks.length < 1 := by
    cases ks with
    | nil => exact absurd rfl hks
    | cons k rest => simp
  refine ⟨{ ValidKeys := insertScopes [] ks }, ?_, ?_⟩
  · simp [Presharedkey.NewAuthenticator, hlen, insertScopes]
  · have hmem : mapGet (insertScopes [] ks) t = none ↔ t ∉ ks := by
      rw [mapGet_eq_none_iff, mem_mapKeys_insertScopes]
      simp [mapKeys]
    by_cases ht : t ∈ ks
    · have hsome : ∃ b, mapGet (insertScopes [] ks) t = some b := by
        cases h : mapGet (insertScopes [] ks) t with
        | none => exact absurd ht (hmem.mp h)
        | some b => exact ⟨b, rfl⟩
      obtain ⟨b, hb⟩ := hsome
      have hres : Presharedkey.Authenticator.Authenticate { ValidKeys := insertScopes [] ks }
          (.ok t) = .ok { Subject := "", Scopes := none } := by
        simp [Presharedkey.Authenticator.Authenticate, hb]
      refine ⟨⟨fun _ => ht, fun _ => ⟨_, hres⟩⟩, ?_, fun _ => hres, fun h => absurd ht h⟩
      intro c hc
      rw [hres] at hc
      have := Except.ok.inj hc
      subst this
      exact ⟨rfl, rfl⟩
    · have hnone := hmem.mpr ht
      have hres : Presharedkey.Authenticator.Authenticate { ValidKeys := insertScopes [] ks }
          (.ok t) = .error AuthError.Unauthenticated := by
        simp [Presharedkey.Authenticator.Authenticate, hnone]
      refine ⟨⟨?_, fun h => absurd h ht⟩, ?_, fun h => absurd h ht, fun _ => hres⟩
      · rintro ⟨c, hc⟩
        rw [hres] at hc
        cases hc
      · intro c hc
        rw [hres] at hc
        cases hc

/-- Witness for C6: keys `k1`, `k2`, `k1` (a duplicate) and the credential
`k2`. -/
theorem preshared_membership_witness :
    ["k1", "k2", "k1"] ≠ [] ∧
    ∃ a, Presharedkey.NewAuthenticator ["k1", "k2", "k1"] = .ok a ∧
      ((∃ c, a.Authenticate (.ok "k2") = .ok c) ↔ "k2" ∈ ["k1", "k2", "k1"]) ∧
      (∀ c, a.Authenticate (.ok "k2") = .ok c → c.Subject = "" ∧ c.Scopes.keys = []) ∧
      ("k2" ∈ ["k1", "k2", "k1"] →
        a.Authenticate (.ok "k2") = .ok { Subject := "", Scopes := none }) ∧
      ("k2" ∉ ["k1", "k2", "k1"] →
        a.Authenticate (.ok "k2") = .error AuthError.Unauthenticated) :=
  ⟨by simp, preshared_membership ["k1", "k2", "k1"] "k2" (by simp)⟩

/-! ## Issuer and audience checks of the dynamic-key authenticator -/

theorem length_pos_of_ne_empty (s : String) (h : s ≠ "") : 0 < s.length := by
  have hd : s.data ≠ [] := fun hd => h (String.ext hd)
  exact List.length_pos.mpr hd

theorem VerifyIssuer_false (m : MapClaims) (issuer : String)
    (h : mapGet m "iss" ≠ some (JVal.str issuer)) : Oidc.VerifyIssuer m issuer true = false := by
  unfold Oidc.VerifyIssuer Oidc.verifyIss
  cases hi : mapGet m "iss" with
  | none => simp
  | some v =>
    cases v with
    | str s =>
      have hne : s ≠ issuer := by
        intro hs
        rw [hi, hs] at h
        exact h rfl
      by_cases he : s = "" <;> simp [he, hne]
    | num n => simp
    | bool b => simp
    | null => simp
    | obj kvs => simp
    | strs xs => simp
    | list xs => simp

theorem VerifyIssuer_true (m : MapClaims) (issuer : String) (hne : issuer ≠ "")
    (h : mapGet m "iss" = some (JVal.str issuer)) : Oidc.VerifyIssuer m issuer true = true := by
  simp [Oidc.VerifyIssuer, Oidc.verifyIss, h, hne]

theorem verifyAud_fold_fst (cmp : String) (aud : List String) (b : Bool) (acc : String) :
    (aud.foldl (fun (st : Bool × String) a => (if a = cmp then true else st.1, st.2 ++ a))
      (b, acc)).1 = (b || decide (cmp ∈ aud)) := by
  induction aud generalizing b acc with
  | nil => simp
  | cons a rest ih =>
    simp only [List.foldl_cons]
    rw [ih]
    by_cases h : a = cmp
    · simp [h]
    · have h2 : ¬ cmp = a := fun hh => h hh.symm
      simp [h, h2]

theorem verifyAud_fold_snd (cmp : String) (aud : List String) (b : Bool) (acc : String) :
    (aud.foldl (fun (st : Bool × String) a => (if a = cmp then true else st.1, st.2 ++ a))
      (b, acc)).2.length = acc.length + (aud.map String.length).sum := by
  induction aud generalizing b acc with
  | nil => simp
  | cons a rest ih =>
    simp only [List.foldl_cons]
    rw [ih]
    simp [String.length_append, Nat.add_assoc]

theorem verifyAud_false_of_not_mem (aud : List String) (cmp : String) (h : cmp ∉ aud) :
    Oidc.verifyAud aud cmp true = false := by
  unfold Oidc.verifyAud
  by_cases hl : aud.length = 0
  · simp [hl]
  · simp only [hl, if_false]
    split
    · simp
    · rw [verifyAud_fold_fst]
      simp [h]

theorem verifyAud_true_of_mem (aud : List String) (cmp : String) (hne : cmp ≠ "")
    (h : cmp ∈ aud) : Oidc.verifyAud aud cmp true = true := by
  unfold Oidc.verifyAud
  have hl : ¬ aud.length = 0 := by
    intro h0
    rw [List.length_eq_zero.mp h0] at h
    simp at h
  have hpos : 0 < (aud.map String.length).sum := by
    have h1 : cmp.length ∈ aud.map String.length := List.mem_map_of_mem _ h
    have h2 := List.single_le_sum (fun _ _ => Nat.zero_le _) _ h1
    have h3 := length_pos_of_ne_empty cmp hne
    omega
  simp only [hl, if_false]
  have hlen := verifyAud_fold_snd cmp aud false ""
  split
  · next h0 => omega
  · rw [verifyAud_fold_fst]
    simp [h]

theorem audStrings_mem (l : List JVal) (l2 : List String) (h : Oidc.audStrings l = some l2)
    (x : String) : x ∈ l2 ↔ JVal.str x ∈ l := by
  induction l generalizing l2 with
  | nil =>
    simp [Oidc.audStrings] at h
    simp [h]
  | cons v rest ih =>
    cases v with
    | str s =>
      simp only [Oidc.audStrings, Option.map_eq_some'] at h
      obtain ⟨l3, h3, rfl⟩ := h
      simp [ih l3 h3]
    | num n => simp [Oidc.audStrings] at h
    | bool b => simp [Oidc.audStrings] at h
    | null => simp [Oidc.audStrings] at h
    | obj kvs => simp [Oidc.audStrings] at h
    | strs xs => simp [Oidc.audStrings] at h
    | list xs => simp [Oidc.audStrings] at h

theorem audStrings_of_strings (l : List JVal) (h : ∀ v ∈ l, ∃ s, v = JVal.str s) :
    ∃ l2, Oidc.audStrings l = some l2 := by
  induction l with
  | nil => exact ⟨[], rfl⟩
  | cons v rest ih =>
    obtain ⟨s, rfl⟩ := h v (by simp)
    obtain ⟨l3, h3⟩ := ih (fun w hw => h w (List.mem_cons_of_mem _ hw))
    exact ⟨s :: l3, by simp [Oidc.audStrings, h3]⟩

theorem VerifyAudience_false (m : MapClaims) (audience : String)
    (h : ¬ audContains m audience) : Oidc.VerifyAudience m audience true = false := by
  unfold audContains at h
  unfold Oidc.VerifyAudience
  cases ha : mapGet m "aud" with
  | none => simp [Oidc.verifyAud]
  | some v =>
    rw [ha] at h
    cases v with
    | str s =>
      simp only at h ⊢
      exact verifyAud_false_of_not_mem [s] audience (by simpa using fun hh => h hh.symm)
    | strs xs =>
      simp only at h ⊢
      exact verifyAud_false_of_not_mem xs audience h
    | list xs =>
      simp only at h ⊢
      cases hs : Oidc.audStrings xs with
      | none => rfl
      | some l2 =>
        simp only
        exact verifyAud_false_of_not_mem l2 audience
          (fun hm => h ((audStrings_mem xs l2 hs audience).mp hm))
    | num n => simp [Oidc.verifyAud]
    | bool b => simp [Oidc.verifyAud]
    | null => simp [Oidc.verifyAud]
    | obj kvs => simp [Oidc.verifyAud]

theorem VerifyAudience_true (m : MapClaims) (audience : String) (hne : audience ≠ "")
    (hwf : audIsStrings m) (h : audContains m audience) :
    Oidc.VerifyAudience m audience true = true := by
  unfold audContains at h
  unfold audIsStrings at hwf
  unfold Oidc.VerifyAudience
  cases ha : mapGet m "aud" with
  | none => simp [ha] at h
  | some v =>
    rw [ha] at h hwf
    cases v with
    | str s =>
      simp only at h ⊢
      exact verifyAud_true_of_mem [s] audience hne (by simp [h])
    | strs xs =>
      simp only at h ⊢
      exact verifyAud_true_of_mem xs audience hne h
    | list xs =>
      simp only at h hwf ⊢
      obtain ⟨l2, hs⟩ := audStrings_of_strings xs hwf
      rw [hs]
      simp only
      exact verifyAud_true_of_mem l2 audience hne ((audStrings_mem xs l2 hs audience).mpr h)
    | num n => simp at h
    | bool b => simp at h
    | null => simp at h
    | obj kvs => simp at h

/-- Counterexample to C7 as stated. (1) The authenticator for issuer
`https://idp.example` with the empty configured audience rejects with
`InvalidAudience` a valid token whose issuer matches and whose `aud` is the
single string equal to the configured audience, although its claim set
decodes. (2) An authenticator value with the empty issuer rejects with
`InvalidIssuer` a valid token whose `iss` is present and equal to the
configured issuer. -/
theorem issuer_audience_counterexample :
    (mapGet claimsEmptyAudience "iss" = some (JVal.str dynamicKeyNoAudience.IssuerURL) ∧
      audIsStrings claimsEmptyAudience ∧
      audContains claimsEmptyAudience dynamicKeyNoAudience.Audience ∧
      dynamicKeyNoAudience.Authenticate parseEmptyAudience (.ok "tok")
        = .error AuthError.InvalidAudience ∧
      MapClaimsToAuthClaims claimsEmptyAudience
        = .ok { Subject := "alice", Scopes := some [] }) ∧
    (mapGet claimsEmptyIssuer "iss" = some (JVal.str dynamicKeyNoIssuer.IssuerURL) ∧
      audIsStrings claimsEmptyIssuer ∧
      audContains claimsEmptyIssuer dynamicKeyNoIssuer.Audience ∧
      dynamicKeyNoIssuer.Authenticate parseEmptyIssuer (.ok "tok")
        = .error AuthError.InvalidIssuer) := by
  refine ⟨⟨rfl, ?_, ?_, rfl, rfl⟩, ⟨rfl, ?_, ?_, rfl⟩⟩
  · simp [audIsStrings, claimsEmptyAudience, mapGet]
  · simp [audContains, claimsEmptyAudience, mapGet, dynamicKeyNoAudience]
  · simp [audIsStrings, claimsEmptyIssuer, mapGet]
  · simp [audContains, claimsEmptyIssuer, mapGet, dynamicKeyNoIssuer]

/-- C7, amended. For every dynamic-key authenticator and every successfully
parsed, valid token with a map claim set: `Authenticate` returns
`InvalidIssuer` if `iss` is absent or not exactly the configured issuer,
whatever `aud` is and whatever the configuration; otherwise, when the
configured issuer is non-empty, it returns `InvalidAudience` if `aud` does not
contain the configured audience; and when the configured issuer and audience
are both non-empty, `iss` matches and `aud`, a single string or a list of
strings, contains the audience, the result is the decoding of the claim set by
`MapClaimsToAuthClaims`. -/
theorem issuer_audience_checks (jwtParse : Parse) (o : Oidc.Authenticator) (s : String)
    (token : Token) (m : MapClaims)
    (hparse : o.parseToken jwtParse s = .ok token) (hvalid : token.Valid = true)
    (hclaims : token.Claims = .map m) :
    (mapGet m "iss" ≠ some (JVal.str o.IssuerURL) →
      o.Authenticate jwtParse (.ok s) = .error AuthError.InvalidIssuer) ∧
    (o.IssuerURL ≠ "" → mapGet m "iss" = some (JVal.str o.IssuerURL) →
      ¬ audContains m o.Audience →
      o.Authenticate jwtParse (.ok s) = .error AuthError.InvalidAudience) ∧
    (o.IssuerURL ≠ "" → o.Audience ≠ "" → mapGet m "iss" = some (JVal.str o.IssuerURL) →
      audIsStrings m → audContains m o.Audience →
      o.Authenticate jwtParse (.ok s) = MapClaimsToAuthClaims m) := by
  refine ⟨?_, ?_, ?_⟩
  · intro h
    simp [Oidc.Authenticator.Authenticate, hparse, hvalid, hclaims,
      VerifyIssuer_false m o.IssuerURL h]
  · intro hissuer h1 h2
    simp [Oidc.Authenticator.Authenticate, hparse, hvalid, hclaims,
      VerifyIssuer_true m o.IssuerURL hissuer h1, VerifyAudience_false m o.Audience h2]
  · intro hissuer haudience h1 h2 h3
    simp [Oidc.Authenticator.Authenticate, hparse, hvalid, hclaims,
      VerifyIssuer_true m o.IssuerURL hissuer h1,
      VerifyAudience_true m o.Audience haudience h2 h3]

/-- Witness for C7 (amended): the authenticator for issuer `https://idp.example`
and audience `api` is presented a valid token of that issuer for that
audience; the token passes both checks and its claim set is decoded. -/
theorem issuer_audience_checks_witness :
    (dynamicKeyIdp.parseToken parseValidIdp "tok" = .ok
        { Method := some .RS256
          Claims := .map [("iss", JVal.str "https://idp.example"), ("aud", JVal.str "api"),
            ("sub", JVal.str "alice")]
          Valid := true } ∧
      dynamicKeyIdp.IssuerURL ≠ "" ∧ dynamicKeyIdp.Audience ≠ "" ∧
      audIsStrings [("iss", JVal.str "https://idp.example"), ("aud", JVal.str "api"),
        ("sub", JVal.str "alice")] ∧
      audContains [("iss", JVal.str "https://idp.example"), ("aud", JVal.str "api"),
        ("sub", JVal.str "alice")] dynamicKeyIdp.Audience) ∧
    dynamicKeyIdp.Authenticate parseValidIdp (.ok "tok")
      = .ok { Subject := "alice", Scopes := some [] } ∧
    dynamicKeyIdp.Authenticate parseValidIdp (.ok "tok")
      = MapClaimsToAuthClaims [("iss", JVal.str "https://idp.example"),
          ("aud", JVal.str "api"), ("sub", JVal.str "alice")] :=
  have h1 : audIsStrings [("iss", JVal.str "https://idp.example"), ("aud", JVal.str "api"),
      ("sub", JVal.str "alice")] := by
    simp [audIsStrings, mapGet]
  have h2 : audContains [("iss", JVal.str "https://idp.example"), ("aud", JVal.str "api"),
      ("sub", JVal.str "alice")] dynamicKeyIdp.Audience := by
    simp [audContains, mapGet, dynamicKeyIdp]
  ⟨⟨rfl, by decide, by decide, h1, h2⟩, rfl,
    (issuer_audience_checks parseValidIdp dynamicKeyIdp "tok" _ _ rfl rfl rfl).2.2
      (by decide) (by decide) rfl h1 h2⟩

/-! ## Discovery URI -/

theorem stringsTrimSuffix_append (v : String) : stringsTrimSuffix (v ++ "/") "/" = v := by
  have hsuf : stringsHasSuffix (v ++ "/") "/" = true := by
    simp only [stringsHasSuffix, String.data_append]
    rw [List.isSuffixOf_iff_suffix]
    exact List.suffix_append _ _
  have hdata : ("/" : String).data = ['/'] := rfl
  simp only [stringsTrimSuffix, hsuf, if_true, String.data_append, hdata]
  apply String.ext
  simp

theorem stringsTrimSuffix_of_not_suffix (u : String) (h : ¬ ∃ v : String, u = v ++ "/") :
    stringsTrimSuffix u "/" = u := by
  have hsuf : stringsHasSuffix u "/" = false := by
    cases hb : stringsHasSuffix u "/" with
    | false => rfl
    | true =>
      exfalso
      simp only [stringsHasSuffix] at hb
      rw [List.isSuffixOf_iff_suffix] at hb
      obtain ⟨t, ht⟩ := hb
      exact h ⟨String.mk t, String.ext (by simp [← ht])⟩
  simp [stringsTrimSuffix, hsuf]

/-- C12. Discovery URI normalisation: `getDiscoveryUri` returns the issuer URL
with one trailing `/` removed when it ends in `/`, and unchanged otherwise,
followed by `/.well-known/openid-configuration`; so an issuer URL `u` that does
not end in `/` and the URL `u/` give the same discovery URI. -/
theorem discovery_uri (u : String) :
    (∀ v : String, u = v ++ "/" →
      Oidc.getDiscoveryUri u = v ++ "/.well-known/openid-configuration") ∧
    ((¬ ∃ v : String, u = v ++ "/") →
      Oidc.getDiscoveryUri u = u ++ "/.well-known/openid-configuration" ∧
      Oidc.getDiscoveryUri (u ++ "/") = Oidc.getDiscoveryUri u) := by
  constructor
  · intro v hv
    rw [hv, Oidc.getDiscoveryUri, stringsTrimSuffix_append]
  · intro h
    have h1 : Oidc.getDiscoveryUri u = u ++ "/.well-known/openid-configuration" := by
      rw [Oidc.getDiscoveryUri, stringsTrimSuffix_of_not_suffix u h]
    refine ⟨h1, ?_⟩
    rw [h1, Oidc.getDiscoveryUri, stringsTrimSuffix_append]

/-! ## Construction and issuance in preshared-key mode -/

theorem preshared_new_ok (ks : List String) (hks : ks ≠ []) :
    Presharedkey.NewAuthenticator ks = .ok { ValidKeys := insertScopes [] ks } := by
  have hlen : ¬ ks.length < 1 := by
    cases ks with
    | nil => exact absurd rfl hks
    | cons k rest => simp
  simp [Presharedkey.NewAuthenticator, hlen, insertScopes]

/-- C14. Preshared-key construction: `NewAuthenticator ks` fails, with the
configuration error, exactly when `ks` is empty; for a non-empty `ks` it
succeeds with a key set whose members are exactly the elements of `ks`. -/
theorem preshared_construction (ks : List String) :
    ((∃ e, Presharedkey.NewAuthenticator ks = .error e) ↔ ks = []) ∧
    (ks = [] → Presharedkey.NewAuthenticator ks
      = .error (.other "invalid auth configuration, please specify at least one key")) ∧
    (ks ≠ [] → ∃ a, Presharedkey.NewAuthenticator ks = .ok a ∧
      (∀ x, x ∈ mapKeys a.ValidKeys ↔ x ∈ ks) ∧ (mapKeys a.ValidKeys).Nodup ∧
      ∀ x b, (x, b) ∈ a.ValidKeys → b = true) := by
  have hempty : ks = [] → Presharedkey.NewAuthenticator ks
      = .error (.other "invalid auth configuration, please specify at least one key") := by
    intro h
    subst h
    rfl
  refine ⟨⟨?_, fun h => ⟨_, hempty h⟩⟩, hempty, ?_⟩
  · rintro ⟨e, he⟩
    by_contra hne
    rw [preshared_new_ok ks hne] at he
    cases he
  · intro hne
    refine ⟨{ ValidKeys := insertScopes [] ks }, preshared_new_ok ks hne, ?_,
      nodup_mapKeys_insertScopes ks [] (by simp [mapKeys]),
      values_insertScopes_true ks [] (by simp)⟩
    intro x
    rw [mem_mapKeys_insertScopes]
    simp [mapKeys]

theorem randomGetKeyLoop_mem (order : List String) (idx : Int) (h0 : 0 ≤ idx)
    (h1 : idx < order.length) : Presharedkey.randomGetKeyLoop order idx ∈ order := by
  induction order generalizing idx with
  | nil =>
    simp at h1
    omega
  | cons k rest ih =>
    by_cases hz : idx = 0
    · simp [Presharedkey.randomGetKeyLoop, hz]
    · have hrec := ih (idx - 1) (by omega) (by simp at h1; omega)
      simp only [Presharedkey.randomGetKeyLoop, hz, if_false]
      exact List.mem_cons_of_mem _ hrec

/-- C11. Preshared-key `CreateIdentity`: for the authenticator that
`NewAuthenticator` builds from a key list, every claims argument, every drawn
index in `[0, count)` where `count` is the number of distinct keys, and every
iteration order of the key map, `CreateIdentity` returns no error and a
credential that is one of the configured keys, which `Authenticate` accepts;
the result is the same for every claims argument. -/
theorem preshared_create_identity (ks : List String) (a : Presharedkey.Authenticator)
    (claims : AuthClaims) (intn : Nat → Int) (order : List String)
    (hnew : Presharedkey.NewAuthenticator ks = .ok a)
    (horder : order.Perm (mapKeys a.ValidKeys))
    (hlo : 0 ≤ intn (mapLen a.ValidKeys))
    (hhi : intn (mapLen a.ValidKeys) < mapLen a.ValidKeys) :
    mapLen a.ValidKeys = ks.toFinset.card ∧
    ∃ t, a.CreateIdentity intn order claims = .ok t ∧ t ∈ ks ∧
      a.Authenticate (.ok t) = .ok { Subject := "", Scopes := none } ∧
      ∀ claims2, a.CreateIdentity intn order claims2 = .ok t := by
  have hks : ks ≠ [] := by
    rintro rfl
    cases hnew
  rw [preshared_new_ok ks hks] at hnew
  have ha := Except.ok.inj hnew
  subst ha
  simp only at horder hlo hhi ⊢
  have hmem : ∀ x, x ∈ mapKeys (insertScopes [] ks) ↔ x ∈ ks := by
    intro x
    rw [mem_mapKeys_insertScopes]
    simp [mapKeys]
  have hnodup : (mapKeys (insertScopes [] ks)).Nodup :=
    nodup_mapKeys_insertScopes ks [] (by simp [mapKeys])
  have hcard : mapLen (insertScopes [] ks) = ks.toFinset.card := by
    have h1 : mapLen (insertScopes [] ks) = (mapKeys (insertScopes [] ks)).length := by
      simp [mapLen, mapKeys]
    rw [h1, ← List.toFinset_card_of_nodup hnodup]
    congr 1
    ext x
    simp [hmem]
  have hlen : order.length = mapLen (insertScopes [] ks) := by
    rw [horder.length_eq]
    simp [mapLen, mapKeys]
  have hcount : ¬ mapLen (insertScopes [] ks) = 0 := by omega
  have hkey : Presharedkey.Authenticator.randomGetKey { ValidKeys := insertScopes [] ks }
      intn order ∈ order := by
    simp only [Presharedkey.Authenticator.randomGetKey, hcount, if_false]
    exact randomGetKeyLoop_mem order _ hlo (by rw [hlen]; exact hhi)
  have hin : Presharedkey.Authenticator.randomGetKey { ValidKeys := insertScopes [] ks }
      intn order ∈ ks := (hmem _).mp (horder.mem_iff.mp hkey)
  refine ⟨hcard, _, rfl, hin, ?_, fun _ => rfl⟩
  have hget : mapGet (insertScopes [] ks)
      (Presharedkey.Authenticator.randomGetKey { ValidKeys := insertScopes [] ks } intn order)
      ≠ none := by
    rw [Ne, mapGet_eq_none_iff, hmem]
    exact fun h => h hin
  cases hg : mapGet (insertScopes [] ks)
      (Presharedkey.Authenticator.randomGetKey { ValidKeys := insertScopes [] ks } intn order) with
  | none => exact absurd hg hget
  | some b => simp [Presharedkey.Authenticator.Authenticate, hg]

/-- Witness for C11: keys `k1`, `k2`, `k1`; the key map is ranged in the order
`k2`, `k1` and the drawn index is 1, so the credential is `k1`. -/
theorem preshared_create_identity_witness :
    (Presharedkey.NewAuthenticator ["k1", "k2", "k1"]
        = .ok { ValidKeys := [("k1", true), ("k2", true)] } ∧
      ["k2", "k1"].Perm (mapKeys [("k1", true), ("k2", true)])) ∧
    Presharedkey.Authenticator.CreateIdentity { ValidKeys := [("k1", true), ("k2", true)] }
      (fun _ => 1) ["k2", "k1"] { Subject := "alice", Scopes := none } = .ok "k1" ∧
    mapLen [("k1", true), ("k2", true)] = ["k1", "k2", "k1"].toFinset.card ∧
    ∃ t, Presharedkey.Authenticator.CreateIdentity { ValidKeys := [("k1", true), ("k2", true)] }
        (fun _ => 1) ["k2", "k1"] { Subject := "alice", Scopes := none } = .ok t ∧
      t ∈ ["k1", "k2", "k1"] ∧
      Presharedkey.Authenticator.Authenticate { ValidKeys := [("k1", true), ("k2", true)] }
        (.ok t) = .ok { Subject := "", Scopes := none } ∧
      ∀ claims2, Presharedkey.Authenticator.CreateIdentity
        { ValidKeys := [("k1", true), ("k2", true)] } (fun _ => 1) ["k2", "k1"] claims2 = .ok t :=
  ⟨⟨rfl, List.Perm.swap "k1" "k2" []⟩, rfl,
    preshared_create_identity ["k1", "k2", "k1"] { ValidKeys := [("k1", true), ("k2", true)] }
      { Subject := "alice", Scopes := none } (fun _ => 1) ["k2", "k1"] rfl
      (List.Perm.swap "k1" "k2" []) (by decide) (by decide)⟩

/-! ## Shape of the encoded scope claim -/

theorem joinChars_length (sep : Char) (l : List (List Char)) :
    (joinChars sep l).length = (l.map List.length).sum + (l.length - 1) := by
  induction l with
  | nil => simp [joinChars]
  | cons w rest ih =>
    cases rest with
    | nil => simp [joinChars]
    | cons w2 rest2 =>
      simp only [joinChars, List.length_append, List.length_cons] at ih ⊢
      rw [ih]
      simp
      omega

theorem joinStrings_length (l : List String) :
    (joinStrings l).length = (l.map String.length).sum + (l.length - 1) := by
  have h := joinChars_length ' ' (l.map String.data)
  have h2 : (joinStrings l).length = (joinChars ' ' (l.map String.data)).length := rfl
  have h3 : (l.map String.data).map List.length = l.map String.length := by
    rw [List.map_map]
    rfl
  rw [h2, h, h3, List.length_map]

/-- C18. Shape of the encoded scope claim: when the scope set is ranged in the
order `s1, ..., sn`, the string that `AuthClaimsToJwtClaims` builds is
`s1 + " " + ... + " " + sn` (its length is the sum of the scope lengths plus
`n - 1` separators), and the `scope` entry is present, with that string,
exactly when the string is non-empty; so a scope set whose only member is the
empty string gives no `scope` entry although the set is non-empty. -/
theorem encoded_scope_shape (c : AuthClaims) (order : List String)
    (horder : order.Perm c.Scopes.keys) :
    writeScopes (c.Scopes.len : Int) order 0 "" = joinStrings order ∧
    (joinStrings order).length = (order.map String.length).sum + (order.length - 1) ∧
    (joinStrings order ≠ "" →
      mapGet (AuthClaimsToJwtClaims c order) "scope" = some (JVal.str (joinStrings order))) ∧
    (joinStrings order = "" → mapGet (AuthClaimsToJwtClaims c order) "scope" = none) ∧
    (c.Scopes.keys = [""] →
      0 < c.Scopes.len ∧ mapGet (AuthClaimsToJwtClaims c order) "scope" = none) := by
  have hne : ¬ ("sub" = "scope") := by decide
  have hlen : (c.Scopes.len : Int) = (order.length : Int) := by
    rw [← ScopeSet.length_keys, horder.length_eq]
  have hpresent : joinStrings order ≠ "" →
      mapGet (AuthClaimsToJwtClaims c order) "scope" = some (JVal.str (joinStrings order)) := by
    intro h
    have hpos := length_pos_of_ne_empty _ h
    rw [AuthClaimsToJwtClaims_eq c order horder]
    simp [hpos, mapGet, hne]
  have habsent : joinStrings order = "" →
      mapGet (AuthClaimsToJwtClaims c order) "scope" = none := by
    intro h
    rw [AuthClaimsToJwtClaims_eq c order horder, h]
    simp [mapGet, hne]
  refine ⟨?_, joinStrings_length order, hpresent, habsent, ?_⟩
  · rw [hlen]
    exact writeScopes_eq_joinStrings order
  · intro hk
    have ho : order = [""] := by
      rw [hk] at horder
      exact List.perm_singleton.mp horder
    refine ⟨?_, habsent (by rw [ho]; rfl)⟩
    rw [← ScopeSet.length_keys, hk]
    simp

/-- Witness for C18: scopes `read` and `write`, ranged in the order `write`,
`read`, give the scope string `write read`. -/
theorem encoded_scope_shape_witness :
    ["write", "read"].Perm (ScopeSet.keys (some [("read", true), ("write", true)])) ∧
    joinStrings ["write", "read"] = "write read" ∧
    writeScopes (ScopeSet.len (some [("read", true), ("write", true)]) : Int)
      ["write", "read"] 0 "" = joinStrings ["write", "read"] ∧
    (joinStrings ["write", "read"]).length
      = (["write", "read"].map String.length).sum + (["write", "read"].length - 1) ∧
    (joinStrings ["write", "read"] ≠ "" →
      mapGet (AuthClaimsToJwtClaims ⟨"alice", some [("read", true), ("write", true)]⟩
        ["write", "read"]) "scope" = some (JVal.str (joinStrings ["write", "read"]))) ∧
    (joinStrings ["write", "read"] = "" →
      mapGet (AuthClaimsToJwtClaims ⟨"alice", some [("read", true), ("write", true)]⟩
        ["write", "read"]) "scope" = none) ∧
    (ScopeSet.keys (some [("read", true), ("write", true)]) = [""] →
      0 < ScopeSet.len (some [("read", true), ("write", true)]) ∧
      mapGet (AuthClaimsToJwtClaims ⟨"alice", some [("read", true), ("write", true)]⟩
        ["write", "read"]) "scope" = none) :=
  ⟨List.Perm.swap "read" "write" [], rfl,
    encoded_scope_shape ⟨"alice", some [("read", true), ("write", true)]⟩ ["write", "read"]
      (List.Perm.swap "read" "write" [])⟩

/-! ## Discovery validation and construction of the dynamic-key authenticator -/

theorem GetConfiguration_of_response (net : Oidc.Net) (issuerURL req : String) (status : Int)
    (body : String) (hreq : net.NewRequest (Oidc.getDiscoveryUri issuerURL) = .ok req)
    (hdo : net.Do req = .ok { StatusCode := status, Body := .ok body }) :
    Oidc.GetConfiguration net issuerURL =
      if status ≠ 200 then .error (.other "unexpected status code getting OIDC")
      else
        match net.Unmarshal body with
        | .error _ => .error (.other "failed parsing document")
        | .ok oidcConfig =>
          if oidcConfig.Issuer = "" then .error (.other "missing issuer value")
          else if oidcConfig.JWKSURL = "" then .error (.other "missing jwks_uri value")
          else .ok oidcConfig := by
  simp only [Oidc.GetConfiguration, hreq, hdo, Oidc.StatusOK]

theorem fetchKeys_error_of_config_error (net : Oidc.Net) (issuerURL : String) (e : GoError)
    (h : Oidc.GetConfiguration net issuerURL = .error e) :
    ∃ e2, Oidc.fetchKeys net issuerURL = .error e2 := by
  simp [Oidc.fetchKeys, h]

theorem NewAuthenticator_error_of_fetch_error (net : Oidc.Net)
    (issuerURL audience alg : String) (e : GoError)
    (h : Oidc.fetchKeys net issuerURL = .error e) :
    ∃ e2, Oidc.NewAuthenticator net issuerURL audience alg = .error e2 := by
  simp [Oidc.NewAuthenticator, h]

/-- C13. Discovery validation: when the discovery request yields a response
with a status code and a readable body, `GetConfiguration` succeeds exactly
when the status is 200, the body parses as a provider configuration, and its
issuer and `jwks_uri` fields are both non-empty (it then returns the parsed
configuration). Whenever `GetConfiguration` fails, `fetchKeys` fails and
`NewAuthenticator` fails, returning no authenticator. -/
theorem discovery_validation (net : Oidc.Net) (issuerURL audience alg : String) :
    (∀ (req : String) (status : Int) (body : String),
      net.NewRequest (Oidc.getDiscoveryUri issuerURL) = .ok req →
      net.Do req = .ok { StatusCode := status, Body := .ok body } →
      ∀ cfg, Oidc.GetConfiguration net issuerURL = .ok cfg ↔
        (status = 200 ∧ net.Unmarshal body = .ok cfg ∧ cfg.Issuer ≠ "" ∧ cfg.JWKSURL ≠ "")) ∧
    (∀ e, Oidc.GetConfiguration net issuerURL = .error e →
      (∃ e2, Oidc.fetchKeys net issuerURL = .error e2) ∧
      ∃ e3, Oidc.NewAuthenticator net issuerURL audience alg = .error e3) := by
  constructor
  · intro req status body hreq hdo cfg
    rw [GetConfiguration_of_response net issuerURL req status body hreq hdo]
    by_cases hs : status = 200
    · simp only [hs, ne_eq, not_true_eq_false, if_false, true_and]
      cases hu : net.Unmarshal body with
      | error e => simp
      | ok oidcConfig =>
        by_cases hi : oidcConfig.Issuer = ""
        · simp only [hi, if_true]
          constructor
          · intro h
            cases h
          · rintro ⟨h1, h2, _⟩
            have := Except.ok.inj h1
            subst this
            exact absurd hi h2
        · by_cases hj : oidcConfig.JWKSURL = ""
          · simp only [hi, hj, if_true, if_false]
            constructor
            · intro h
              cases h
            · rintro ⟨h1, _, h3⟩
              have := Except.ok.inj h1
              subst this
              exact absurd hj h3
          · simp only [hi, hj, if_false]
            constructor
            · intro h
              have := Except.ok.inj h
              subst this
              exact ⟨rfl, hi, hj⟩
            · rintro ⟨h1, _, _⟩
              exact h1
    · simp [hs]
  · intro e he
    obtain ⟨e2, h2⟩ := fetchKeys_error_of_config_error net issuerURL e he
    exact ⟨⟨e2, h2⟩, NewAuthenticator_error_of_fetch_error net issuerURL audience alg e2 h2⟩

/-- Witness for C13: the provider `idpNet` answers discovery for
`https://idp.example/` with status 200 and a complete document, and
`GetConfiguration` returns that document. -/
theorem discovery_validation_witness :
    idpNet.NewRequest (Oidc.getDiscoveryUri "https://idp.example/")
      = .ok "https://idp.example/.well-known/openid-configuration" ∧
    idpNet.Do "https://idp.example/.well-known/openid-configuration"
      = .ok { StatusCode := 200, Body := .ok "discovery document" } ∧
    Oidc.GetConfiguration idpNet "https://idp.example/"
      = .ok { Issuer := "https://idp.example", JWKSURL := "https://idp.example/jwks" } ∧
    (Oidc.GetConfiguration idpNet "https://idp.example/"
        = .ok { Issuer := "https://idp.example", JWKSURL := "https://idp.example/jwks" } ↔
      ((200 : Int) = 200 ∧
        idpNet.Unmarshal "discovery document"
          = .ok { Issuer := "https://idp.example", JWKSURL := "https://idp.example/jwks" } ∧
        "https://idp.example" ≠ "" ∧ "https://idp.example/jwks" ≠ "")) :=
  ⟨rfl, rfl, rfl,
    (discovery_validation idpNet "https://idp.example/" "api" "RS256").1
      "https://idp.example/.well-known/openid-configuration" 200 "discovery document" rfl rfl
      { Issuer := "https://idp.example", JWKSURL := "https://idp.example/jwks" }⟩

/-! ## Default algorithm -/

theorem oidc_new_signingMethod (net : Oidc.Net) (issuerURL audience alg : String)
    (a : Oidc.Authenticator) (h : Oidc.NewAuthenticator net issuerURL audience alg = .ok a) :
    a.signingMethod =
      (if GetSigningMethod alg = none then some SigningMethod.RS256 else GetSigningMethod alg) ∧
    a.IssuerURL = issuerURL ∧ a.Audience = audience := by
  simp only [Oidc.NewAuthenticator] at h
  cases hf : Oidc.fetchKeys net issuerURL with
  | error e => simp [hf] at h
  | ok r =>
    obtain ⟨uri, jwks⟩ := r
    simp only [hf] at h
    have := Except.ok.inj h
    subst this
    exact ⟨rfl, rfl, rfl⟩

/-- C15. Default algorithm: the shared-secret `NewAuthenticator` never fails and
binds the signing method that the algorithm name resolves to, HS256 when the
name is not recognized; every authenticator that the dynamic-key
`NewAuthenticator` returns has the resolved method bound, RS256 when the name
is not recognized. -/
theorem default_algorithm (key alg : String) :
    (∃ a, Jwt.NewAuthenticator key alg = .ok a ∧
      (∀ m, GetSigningMethod alg = some m → a.signingMethod = some m) ∧
      (GetSigningMethod alg = none → a.signingMethod = some SigningMethod.HS256)) ∧
    (∀ (net : Oidc.Net) (issuerURL audience : String) (o : Oidc.Authenticator),
      Oidc.NewAuthenticator net issuerURL audience alg = .ok o →
      (∀ m, GetSigningMethod alg = some m → o.signingMethod = some m) ∧
      (GetSigningMethod alg = none → o.signingMethod = some SigningMethod.RS256)) := by
  constructor
  · cases hg : GetSigningMethod alg with
    | none =>
      refine ⟨{ signingMethod := some .HS256, keyFunc := some (fun _ => .ok key) }, ?_, ?_, ?_⟩
      · simp [Jwt.NewAuthenticator, hg]
      · intro m hm
        cases hm
      · intro _
        rfl
    | some m0 =>
      refine ⟨{ signingMethod := some m0, keyFunc := some (fun _ => .ok key) }, ?_, ?_, ?_⟩
      · simp [Jwt.NewAuthenticator, hg]
      · intro m hm
        exact hm
      · intro h
        cases h
  · intro net issuerURL audience o ho
    have h := (oidc_new_signingMethod net issuerURL audience alg o ho).1
    constructor
    · intro m hm
      rw [h, hm]
      simp
    · intro hn
      rw [h, hn]
      simp

/-- Witness for C15: the name `HS512` resolves, the name `bogus` does not; the
dynamic-key construction against the provider `idpNet` succeeds and binds
RS256 for `bogus`. -/
theorem default_algorithm_witness :
    GetSigningMethod "HS512" = some SigningMethod.HS512 ∧
    GetSigningMethod "bogus" = none ∧
    (∃ o, Oidc.NewAuthenticator idpNet "https://idp.example/" "api" "bogus" = .ok o ∧
      o.signingMethod = some SigningMethod.RS256) ∧
    (∃ a, Jwt.NewAuthenticator "s3cr3t" "bogus" = .ok a ∧
      (∀ m, GetSigningMethod "bogus" = some m → a.signingMethod = some m) ∧
      (GetSigningMethod "bogus" = none → a.signingMethod = some SigningMethod.HS256)) :=
  ⟨by decide, by decide,
    ⟨{ IssuerURL := "https://idp.example/", Audience := "api",
        JwksURI := "https://idp.example/jwks",
        JWKs := { Keyfunc := fun _ => .ok "public-key" }, signingMethod := some .RS256 },
      rfl, rfl⟩,
    (default_algorithm "s3cr3t" "bogus").1⟩

/-! ## The configured algorithm of the dynamic-key authenticator -/

theorem MapClaimsToAuthClaims_error (m : MapClaims) (e : AuthError)
    (h : MapClaimsToAuthClaims m = .error e) : e = AuthError.InvalidSubject := by
  unfold MapClaimsToAuthClaims at h
  cases hsub : mapGet m "sub" with
  | none => simp [hsub] at h
  | some v =>
    cases v <;> simp [hsub] at h <;> exact h.symm

theorem oidc_authenticate_ne_unsupported (jwtParse : Parse) (o : Oidc.Authenticator)
    (md : Extraction) :
    o.Authenticate jwtParse md ≠ .error AuthError.UnsupportedSigningMethod := by
  intro h
  cases md with
  | error e => simp [Oidc.Authenticator.Authenticate] at h
  | ok s =>
    simp only [Oidc.Authenticator.Authenticate] at h
    cases hp : o.parseToken jwtParse s with
    | fail t err =>
      rw [hp] at h
      cases err with
      | authn e => simp at h
      | validation errors =>
        simp only at h
        split at h
        · simp at h
        · split at h <;> simp at h
      | other msg => simp at h
    | ok token =>
      rw [hp] at h
      simp only at h
      split at h
      · simp at h
      · cases hc : token.Claims with
        | nil => simp [hc] at h
        | other => simp [hc] at h
        | map m =>
          simp only [hc] at h
          split at h
          · simp at h
          · split at h
            · simp at h
            · have := MapClaimsToAuthClaims_error m _ h
              cases this

/-- C17. The dynamic-key `Authenticate` never consults the configured signing
algorithm: two dynamic-key authenticators with the same issuer, audience and
key set, whatever their signing methods, return the same result on every
request; and the result is never `UnsupportedSigningMethod`. -/
theorem signing_method_not_consulted (jwtParse : Parse) (o1 o2 : Oidc.Authenticator)
    (md : Extraction) (hissuer : o1.IssuerURL = o2.IssuerURL)
    (haudience : o1.Audience = o2.Audience) (hkeys : o1.JWKs = o2.JWKs) :
    o1.Authenticate jwtParse md = o2.Authenticate jwtParse md ∧
    o1.Authenticate jwtParse md ≠ .error AuthError.UnsupportedSigningMethod ∧
    o2.Authenticate jwtParse md ≠ .error AuthError.UnsupportedSigningMethod := by
  refine ⟨?_, oidc_authenticate_ne_unsupported jwtParse o1 md,
    oidc_authenticate_ne_unsupported jwtParse o2 md⟩
  obtain ⟨i1, a1, u1, k1, s1⟩ := o1
  obtain ⟨i2, a2, u2, k2, s2⟩ := o2
  simp only at hissuer haudience hkeys
  subst hissuer haudience hkeys
  rfl

/-- Witness for C17: the authenticator for `https://idp.example` configured
with RS256 and the same authenticator configured with HS256 both accept a
valid token that declares RS256. -/
theorem signing_method_not_consulted_witness :
    dynamicKeyIdp.signingMethod ≠ ({ dynamicKeyIdp with signingMethod := some .HS256 } :
      Oidc.Authenticator).signingMethod ∧
    ({ dynamicKeyIdp with signingMethod := some .HS256 } : Oidc.Authenticator).Authenticate
      parseValidIdp (.ok "tok") = .ok { Subject := "alice", Scopes := some [] } ∧
    (dynamicKeyIdp.Authenticate parseValidIdp (.ok "tok")
        = ({ dynamicKeyIdp with signingMethod := some .HS256 } :
            Oidc.Authenticator).Authenticate parseValidIdp (.ok "tok") ∧
      dynamicKeyIdp.Authenticate parseValidIdp (.ok "tok")
        ≠ .error AuthError.UnsupportedSigningMethod ∧
      ({ dynamicKeyIdp with signingMethod := some .HS256 } : Oidc.Authenticator).Authenticate
        parseValidIdp (.ok "tok") ≠ .error AuthError.UnsupportedSigningMethod) :=
  ⟨by decide, rfl,
    signing_method_not_consulted parseValidIdp dynamicKeyIdp
      { dynamicKeyIdp with signingMethod := some .HS256 } (.ok "tok") rfl rfl rfl⟩


/-! ## Key-resolution errors in shared-secret mode -/

theorem jwt_new_eq (key alg : String) :
    ∃ m, Jwt.NewAuthenticator key alg
      = .ok { signingMethod := some m, keyFunc := some (fun _ => .ok key) } := by
  cases hg : GetSigningMethod alg with
  | none => exact ⟨.HS256, by simp [Jwt.NewAuthenticator, hg]⟩
  | some m0 => exact ⟨m0, by simp [Jwt.NewAuthenticator, hg]⟩

theorem jwt_create_identity_bound (sign : SignedString) (m : SigningMethod) (key : String)
    (claims : AuthClaims) (order : List String) :
    Jwt.Authenticator.CreateIdentity sign
        { signingMethod := some m, keyFunc := some (fun _ => .ok key) } claims order
      = some (match sign (unsignedToken m (AuthClaimsToJwtClaims claims order)) key with
          | .error _ => .error AuthError.SignTokenFailed
          | .ok tokenStr => .ok tokenStr) := by
  simp only [Jwt.Authenticator.CreateIdentity, NewWithClaims, Jwt.Authenticator.generateToken,
    unsignedToken]
  cases sign { Method := some m, Claims := .map (AuthClaimsToJwtClaims claims order), Valid := false } key <;> rfl

/-- Counterexample to C19 as stated: the zero value `jwt.Authenticator{}` has no
key function, and its `CreateIdentity` does not report `MissingKeyFunc`: with
no signing method bound, `jwt.NewWithClaims` panics before `generateToken` is
reached. On a request without a credential its `Authenticate` reports
`MissingBearerToken`. -/
theorem key_function_missing_counterexample :
    zeroValueJwt.keyFunc.isNone = true ∧
    zeroValueJwt.CreateIdentity signAlways { Subject := "alice", Scopes := none } [] = none ∧
    zeroValueJwt.CreateIdentity signAlways { Subject := "alice", Scopes := none } []
      ≠ some (.error AuthError.MissingKeyFunc) ∧
    zeroValueJwt.Authenticate parseValidAlice (.error (.other "no bearer credential"))
      = .error AuthError.MissingBearerToken := by
  refine ⟨rfl, rfl, ?_, rfl⟩
  intro h
  have h2 : zeroValueJwt.CreateIdentity signAlways { Subject := "alice", Scopes := none } []
      = none := rfl
  rw [h2] at h
  cases h

/-- C19, amended. Every authenticator returned by the shared-secret
`NewAuthenticator` has a signing method and a key function bound, and the key
function always returns the secret without error; so its `CreateIdentity`
neither panics nor fails with `MissingKeyFunc` or `GetKeyFailed`: it returns
the signed credential, or `SignTokenFailed` when signing fails. For an
authenticator whose key function is missing, `Authenticate` on a request that
carries a credential reports `Unauthenticated` (not `MissingKeyFunc`), and
`CreateIdentity` reports `MissingKeyFunc` when a signing method is bound. -/
theorem key_resolution_errors (key alg : String) :
    (∃ a kf m, Jwt.NewAuthenticator key alg = .ok a ∧ a.keyFunc = some kf ∧
      a.signingMethod = some m ∧ (∀ token, kf token = .ok key) ∧
      ∀ (sign : SignedString) (claims : AuthClaims) (order : List String),
        (a.CreateIdentity sign claims order = some (.error AuthError.SignTokenFailed) ∨
          ∃ tokenStr, a.CreateIdentity sign claims order = some (.ok tokenStr)) ∧
        a.CreateIdentity sign claims order
          = some (match sign (unsignedToken m (AuthClaimsToJwtClaims claims order)) key with
              | .error _ => .error AuthError.SignTokenFailed
              | .ok tokenStr => .ok tokenStr)) ∧
    (∀ (jwtParse : Parse) (a : Jwt.Authenticator) (s : String), a.keyFunc.isNone = true →
      a.Authenticate jwtParse (.ok s) = .error AuthError.Unauthenticated) ∧
    (∀ (sign : SignedString) (a : Jwt.Authenticator) (m : SigningMethod) (claims : AuthClaims)
      (order : List String), a.keyFunc.isNone = true → a.signingMethod = some m →
      a.CreateIdentity sign claims order = some (.error AuthError.MissingKeyFunc)) := by
  refine ⟨?_, ?_, ?_⟩
  · obtain ⟨m, hm⟩ := jwt_new_eq key alg
    refine ⟨_, fun _ => .ok key, m, hm, rfl, rfl, fun _ => rfl, ?_⟩
    intro sign claims order
    have h := jwt_create_identity_bound sign m key claims order
    refine ⟨?_, h⟩
    rw [h]
    cases sign (unsignedToken m (AuthClaimsToJwtClaims claims order)) key with
    | error e => exact Or.inl rfl
    | ok t => exact Or.inr ⟨t, rfl⟩
  · intro jwtParse a s hk
    obtain ⟨sm, kf⟩ := a
    cases kf with
    | none => rfl
    | some f => simp at hk
  · intro sign a m claims order hk hm
    obtain ⟨sm, kf⟩ := a
    simp only at hm
    subst hm
    cases kf with
    | none => rfl
    | some f => simp at hk

/-- Witness for C19 (amended): the authenticator built for `s3cr3t` and HS256
issues a credential with a signer that succeeds; the authenticator value with
HS256 bound and no key function reports `MissingKeyFunc` from `CreateIdentity`
and `Unauthenticated` from `Authenticate`. -/
theorem key_resolution_errors_witness :
    Jwt.Authenticator.CreateIdentity signAlways sharedSecretHS256
      { Subject := "alice", Scopes := some [("read", true)] } ["read"]
      = some (.ok "header.payload.signature") ∧
    keylessHS256.CreateIdentity signAlways { Subject := "alice", Scopes := none } []
      = some (.error AuthError.MissingKeyFunc) ∧
    keylessHS256.Authenticate parseValidAlice (.ok "tok")
      = .error AuthError.Unauthenticated ∧
    (∀ (jwtParse : Parse) (a : Jwt.Authenticator) (s : String), a.keyFunc.isNone = true →
      a.Authenticate jwtParse (.ok s) = .error AuthError.Unauthenticated) :=
  ⟨rfl, rfl, rfl, (key_resolution_errors "s3cr3t" "HS256").2.1⟩

end Authn
